import Mathlib

/-!
# Verification of the NGS-Chat-Bots core

A shallow embedding of the two source files `twitch_utils.rs` and `app.rs`
of the NGS-Chat-Bots repository, together with theorems checking the
natural-language specification against the code.

Modelling conventions:
* Rust `u64`/`usize` values are `Nat` (none of the verified claims involve
  integer overflow).
* A Rust panic (in particular `rand`'s `random_range` on an empty range,
  which panics with "cannot sample empty range") is modelled as `Option.none`.
* Randomness is an explicit oracle: every `rng.random_range(lo..=hi)` call
  site receives a raw entropy value `c` and produces `lo + c % (hi - lo + 1)`,
  and every `shuffle` call site receives a reordering function from the
  oracle.  `Oracle.Valid` states that the reordering functions really are
  permutations, which is a guarantee of Rust's in-place `shuffle`.
* Network I/O is replaced by its observable trace: the IRC send function is
  a function of the list of server lines read during the join wait, and it
  returns the list of lines written to the socket together with its result.
* `iced` tasks are modelled as a list of effect descriptions (`Eff`)
  returned by `update`; the async closures only ever read the data captured
  in the effect, so the description is complete.
-/

/-! ## Generic helpers mirroring Rust string/slice primitives -/

/-- Rust `str::contains(pat)` (substring test), on character lists. -/
def containsSubList (s pat : List Char) : Bool :=
  pat.isPrefixOf s ||
    match s with
    | [] => false
    | _ :: rest => containsSubList rest pat

/-- Rust `str::contains(pat)` on strings. -/
def containsSub (s pat : String) : Bool :=
  containsSubList s.data pat.data

/-- Rust `str::starts_with(pat)` on strings. -/
def strHasPrefix (pat s : String) : Bool :=
  pat.data.isPrefixOf s.data

/-- Rust `str::replace(pat, rep)`: replace all non-overlapping occurrences,
scanning left to right.  (Our only use has a non-empty pattern.) -/
def replaceList (pat rep : List Char) : List Char → List Char
  | [] => []
  | c :: cs =>
    if h : pat ≠ [] ∧ pat.isPrefixOf (c :: cs) then
      rep ++ replaceList pat rep (List.drop pat.length (c :: cs))
    else
      c :: replaceList pat rep cs
termination_by s => s.length
decreasing_by
  · simp only [List.length_drop, List.length_cons]
    have hp : 0 < pat.length := List.length_pos.mpr h.1
    omega
  · simp

/-- Rust `String::replace` on strings. -/
def strReplace (s pat rep : String) : String :=
  ⟨replaceList pat.data rep.data s.data⟩

/-- Rust `str::split_once('|')`: split at the first `'|'`. -/
def splitOncePipe : List Char → Option (List Char × List Char)
  | [] => Option.none
  | c :: cs =>
    if c = '|' then Option.some ([], cs)
    else
      match splitOncePipe cs with
      | Option.some (a, b) => Option.some (c :: a, b)
      | Option.none => Option.none

/-- Rust `str::lines()` on character data: lines are terminated by `'\n'`
or `"\r\n"` (the terminator is dropped), the final terminator is optional,
and a lone trailing `'\r'` is kept. -/
def linesData : List Char → List (List Char)
  | [] => []
  | '\r' :: '\n' :: cs => [] :: linesData cs
  | '\n' :: cs => [] :: linesData cs
  | c :: cs =>
    match linesData cs with
    | [] => [[c]]
    | l :: ls => (c :: l) :: ls

/-- Rust `str::lines()` on strings. -/
def linesOf (s : String) : List String :=
  (linesData s.data).map String.mk

/-- Rust `str::trim()`: drop whitespace from both ends (on character data,
so that it evaluates inside the kernel). -/
def trimData (s : List Char) : List Char :=
  ((s.dropWhile Char.isWhitespace).reverse.dropWhile Char.isWhitespace).reverse

/-- Rust `str::trim()` on strings. -/
def strTrim (s : String) : String := String.mk (trimData s.data)

/-- `rand`'s `rng.random_range(lo..=hi)` with raw entropy `c`:
panics (`none`) on an empty range, otherwise a value in `[lo, hi]`. -/
def randRange (lo hi c : Nat) : Option Nat :=
  if lo ≤ hi then Option.some (lo + c % (hi - lo + 1)) else Option.none

/-- `rand`'s `rng.random_range(0..n)` with raw entropy `c`:
panics (`none`) on an empty range, otherwise a value `< n`. -/
def randBelow (n c : Nat) : Option Nat :=
  if 0 < n then Option.some (c % n) else Option.none

theorem randRange_le (lo hi c : Nat) (h : lo ≤ hi) :
    ∃ u, randRange lo hi c = Option.some u ∧ lo ≤ u ∧ u ≤ hi := by
  refine ⟨lo + c % (hi - lo + 1), by simp [randRange, h], Nat.le_add_right _ _, ?_⟩
  have : c % (hi - lo + 1) < hi - lo + 1 := Nat.mod_lt _ (Nat.succ_pos _)
  omega

theorem randRange_empty (lo hi c : Nat) (h : hi < lo) :
    randRange lo hi c = Option.none := by
  simp [randRange]; omega

theorem randBelow_lt (n c : Nat) (h : 0 < n) :
    ∃ u, randBelow n c = Option.some u ∧ u < n := by
  exact ⟨c % n, by simp [randBelow, h], Nat.mod_lt _ h⟩

/-! ## Injectivity of the decimal rendering `Nat.repr`

Needed for the uniqueness of the synthesized bot names `bot_<n>`. -/

theorem toDigitsCore_append (b : Nat) :
    ∀ (fuel n : Nat) (ds : List Char),
      Nat.toDigitsCore b fuel n ds = Nat.toDigitsCore b fuel n [] ++ ds := by
  intro fuel
  induction fuel with
  | zero => intro n ds; simp [Nat.toDigitsCore]
  | succ f ih =>
    intro n ds
    simp only [Nat.toDigitsCore]
    by_cases h : n / b = 0
    · simp [h]
    · simp only [h, if_false]
      rw [ih (n / b) (Nat.digitChar (n % b) :: ds), ih (n / b) [Nat.digitChar (n % b)]]
      simp

theorem toDigitsCore_eq_digits :
    ∀ (n : Nat), 0 < n → ∀ (fuel : Nat), n < fuel →
      Nat.toDigitsCore 10 fuel n [] = (Nat.digits 10 n).reverse.map Nat.digitChar := by
  intro n
  induction n using Nat.strong_induction_on with
  | _ n ih =>
    intro hn fuel hfuel
    match fuel, hfuel with
    | f + 1, hfuel =>
      have hb : (1 : Nat) < 10 := by norm_num
      have hdig : Nat.digits 10 n = (n % 10) :: Nat.digits 10 (n / 10) :=
        Nat.digits_eq_cons_digits_div hb (Nat.pos_iff_ne_zero.mp hn)
      simp only [Nat.toDigitsCore]
      by_cases h : n / 10 = 0
      · have : Nat.digits 10 (n / 10) = [] := by rw [h]; simp
        simp [h, hdig, this]
      · have hlt : n / 10 < n := Nat.div_lt_self hn hb
        have hfl : n / 10 < f := by omega
        simp only [h, if_false]
        rw [toDigitsCore_append, ih (n / 10) hlt (Nat.pos_iff_ne_zero.mpr h) f hfl, hdig]
        simp

theorem digitChar_inj_lt :
    ∀ a < 10, ∀ b < 10, Nat.digitChar a = Nat.digitChar b → a = b := by decide

theorem map_digitChar_inj :
    ∀ (l1 l2 : List Nat), (∀ x ∈ l1, x < 10) → (∀ x ∈ l2, x < 10) →
      l1.map Nat.digitChar = l2.map Nat.digitChar → l1 = l2 := by
  intro l1
  induction l1 with
  | nil => intro l2 _ _ h; cases l2 <;> simp_all
  | cons a as ih =>
    intro l2 h1 h2 h
    cases l2 with
    | nil => simp_all
    | cons b bs =>
      simp only [List.map_cons, List.cons.injEq] at h
      have ha : a = b :=
        digitChar_inj_lt a (h1 a (by simp)) b (h2 b (by simp)) h.1
      have : as = bs := ih bs (fun x hx => h1 x (by simp [hx]))
        (fun x hx => h2 x (by simp [hx])) h.2
      simp [ha, this]

theorem toDigits_eq_digits (n : Nat) (hn : 0 < n) :
    Nat.toDigits 10 n = (Nat.digits 10 n).reverse.map Nat.digitChar :=
  toDigitsCore_eq_digits n hn (n + 1) (Nat.lt_succ_self n)

theorem natRepr_injective : Function.Injective Nat.repr := by
  intro m n h
  have hdata : Nat.toDigits 10 m = Nat.toDigits 10 n := by
    have := congrArg String.data h
    simpa [Nat.repr, List.asString] using this
  rcases Nat.eq_zero_or_pos m with hm | hm <;> rcases Nat.eq_zero_or_pos n with hn | hn
  · omega
  · exfalso
    subst hm
    rw [toDigits_eq_digits n hn] at hdata
    have h0 : Nat.toDigits 10 0 = ['0'] := by decide
    rw [h0] at hdata
    have hlen : (Nat.digits 10 n).reverse.length = 1 := by
      have := congrArg List.length hdata
      simpa using this.symm
    obtain ⟨d, hd⟩ : ∃ d, (Nat.digits 10 n).reverse = [d] := by
      match hrev : (Nat.digits 10 n).reverse, hlen with
      | [d], _ => exact ⟨d, rfl⟩
    have hdigs : Nat.digits 10 n = [d] := by
      have := congrArg List.reverse hd
      simpa using this
    have hd0 : Nat.digitChar d = '0' := by
      rw [hd] at hdata; simpa using hdata.symm
    have hdlt : d < 10 := Nat.digits_lt_base (by norm_num) (by rw [hdigs]; simp)
    have : d = 0 := digitChar_inj_lt d hdlt 0 (by norm_num) (by simpa using hd0)
    subst this
    have hne : n ≠ 0 := Nat.pos_iff_ne_zero.mp hn
    have hlast := Nat.getLast_digit_ne_zero 10 hne
    have h1 : (Nat.digits 10 n).getLast? = some 0 := by rw [hdigs]; rfl
    rw [List.getLast?_eq_getLast _ (Nat.digits_ne_nil_iff_ne_zero.mpr hne)] at h1
    exact hlast (Option.some.inj h1)
  · exfalso
    subst hn
    rw [toDigits_eq_digits m hm] at hdata
    have h0 : Nat.toDigits 10 0 = ['0'] := by decide
    rw [h0] at hdata
    have hlen : (Nat.digits 10 m).reverse.length = 1 := by
      have := congrArg List.length hdata
      simpa using this
    obtain ⟨d, hd⟩ : ∃ d, (Nat.digits 10 m).reverse = [d] := by
      match hrev : (Nat.digits 10 m).reverse, hlen with
      | [d], _ => exact ⟨d, rfl⟩
    have hdigs : Nat.digits 10 m = [d] := by
      have := congrArg List.reverse hd
      simpa using this
    have hd0 : Nat.digitChar d = '0' := by
      rw [hd] at hdata; simpa using hdata
    have hdlt : d < 10 := Nat.digits_lt_base (by norm_num) (by rw [hdigs]; simp)
    have : d = 0 := digitChar_inj_lt d hdlt 0 (by norm_num) (by simpa using hd0)
    subst this
    have hne : m ≠ 0 := Nat.pos_iff_ne_zero.mp hm
    have hlast := Nat.getLast_digit_ne_zero 10 hne
    have h1 : (Nat.digits 10 m).getLast? = some 0 := by rw [hdigs]; rfl
    rw [List.getLast?_eq_getLast _ (Nat.digits_ne_nil_iff_ne_zero.mpr hne)] at h1
    exact hlast (Option.some.inj h1)
  · rw [toDigits_eq_digits m hm, toDigits_eq_digits n hn] at hdata
    have hrev : (Nat.digits 10 m).reverse = (Nat.digits 10 n).reverse := by
      apply map_digitChar_inj
      · intro x hx
        exact Nat.digits_lt_base (by norm_num) (List.mem_reverse.mp hx)
      · intro x hx
        exact Nat.digits_lt_base (by norm_num) (List.mem_reverse.mp hx)
      · exact hdata
    have : Nat.digits 10 m = Nat.digits 10 n := by
      have := congrArg List.reverse hrev
      simpa using this
    exact Nat.digits.injective 10 this

theorem botName_injective :
    ∀ m n : Nat, "bot_" ++ Nat.repr m = "bot_" ++ Nat.repr n → m = n := by
  intro m n h
  apply natRepr_injective
  apply String.ext
  have hd : ("bot_" ++ Nat.repr m).data = ("bot_" ++ Nat.repr n).data := by rw [h]
  simp only [String.data_append] at hd
  exact List.append_cancel_left hd

/-! ## `twitch_utils.rs` : the `Bot` type and the credential parser -/

namespace NGS

/-- `Bot` from `twitch_utils.rs`. -/
structure Bot where
  name : String
  token : String
  available : Bool
  enable : Bool
  chat_history : List String
deriving DecidableEq, Repr

/-- `Bot::new`: `available = false`, `enable = true`, empty history. -/
def Bot.new (name token : String) : Bot :=
  { name := name, token := token, available := false, enable := true,
    chat_history := [] }

/-- One iteration of the `filter_map` body of `create_bots`, with the
process-wide `BOT_COUNTER` threaded explicitly (it starts at 1 and
`fetch_add(1)` returns the pre-increment value). -/
def parseLine (line : String) (c : Nat) : Option Bot × Nat :=
  match splitOncePipe line.data with
  | Option.some (tok, namePart) =>
    let name := strTrim (String.mk namePart)
    if name.isEmpty then
      (Option.some (Bot.new ("bot_" ++ Nat.repr c) (strTrim (String.mk tok))), c + 1)
    else
      (Option.some (Bot.new name (strTrim (String.mk tok))), c)
  | Option.none =>
    let token := strTrim line
    if token.isEmpty then (Option.none, c)
    else (Option.some (Bot.new ("bot_" ++ Nat.repr c) token), c + 1)

/-- `create_bots` from `twitch_utils.rs`, over the list of input lines,
threading the global `BOT_COUNTER`. -/
def createBots : List String → Nat → List Bot × Nat
  | [], c => ([], c)
  | line :: rest, c =>
    let pc := parseLine line c
    let bc := createBots rest pc.2
    (match pc.1 with
     | Option.some b => b :: bc.1
     | Option.none => bc.1,
     bc.2)

/-- A line gets a synthesized `bot_<n>` name: either it has a pipe and a
blank name part, or it has no pipe and a non-blank token. -/
def needsSynth (line : String) : Bool :=
  match splitOncePipe line.data with
  | Option.some (_, namePart) => (strTrim (String.mk namePart)).isEmpty
  | Option.none => !(strTrim line).isEmpty

/-- A blank (skipped) line: no pipe and blank after trimming. -/
def isBlankLine (line : String) : Bool :=
  match splitOncePipe line.data with
  | Option.some _ => false
  | Option.none => (strTrim line).isEmpty

/-- The explicit display name of a line, when present and non-blank. -/
def givenName (line : String) : Option String :=
  match splitOncePipe line.data with
  | Option.some (_, namePart) =>
    let name := strTrim (String.mk namePart)
    if name.isEmpty then Option.none else Option.some name
  | Option.none => Option.none

/-- Number of lines that receive a synthesized name. -/
def synthCount (lines : List String) : Nat :=
  (lines.filter needsSynth).length

/-- The synthesized names produced by a parse starting at counter `c`,
in order. -/
def synthNames : List String → Nat → List String
  | [], _ => []
  | line :: rest, c =>
    if needsSynth line then ("bot_" ++ Nat.repr c) :: synthNames rest (c + 1)
    else synthNames rest c

/-! ## `twitch_utils.rs` : connectivity probe (`test_irc_connection`) -/

/-- Everything the probe can observe from the network: the 10-second
timeout elapsing, an I/O error from connect/write/read (the `?` paths),
or a server response read into the buffer. -/
inductive ProbeOutcome where
  | timeout
  | ioError
  | response (resp : String)
deriving DecidableEq, Repr

/-- The welcome test of `test_irc_connection` (numeric 001 is matched by the
literal substring `":tmi.twitch.tv 001"`). -/
def welcomeResp (r : String) : Bool :=
  containsSub r ":tmi.twitch.tv 001" || containsSub r "Welcome"

/-- The authentication-failure test of `test_irc_connection`. -/
def authFailResp (r : String) : Bool :=
  containsSub r "Login authentication failed" || containsSub r "Login unsuccessful"

/-- `test_irc_connection`: the inner async block wrapped in
`async_std::future::timeout`, then `match result { Ok(Ok(v)) => Ok(v), _ => Ok(false) }`. -/
def testIrcConnection (o : ProbeOutcome) : Except String Bool :=
  let inner : Option (Except Unit Bool) :=
    match o with
    | ProbeOutcome.timeout => Option.none
    | ProbeOutcome.ioError => Option.some (Except.error ())
    | ProbeOutcome.response r =>
      Option.some (Except.ok
        (if welcomeResp r then true
         else if authFailResp r then false
         else false))
  match inner with
  | Option.some (Except.ok v) => Except.ok v
  | _ => Except.ok false

/-! ## `twitch_utils.rs` : `send_message_to_channel`

The function is modelled over the list of server lines read during the
5-second join wait (reaching the end of the list stands for the timeout
or EOF).  Its result is the list of lines written to the socket and the
`Result` value. -/

/-- The join-wait read loop: returns the accumulated writes and the
`joined` flag. -/
def sendLoop (writes : List String) : List String → List String × Bool
  | [] => (writes, false)
  | l :: rest =>
    if containsSub l "366" || containsSub l "End of /NAMES list" then
      (writes, true)
    else if strHasPrefix "PING" l then
      sendLoop (writes ++ [strReplace l "PING" "PONG"]) rest
    else
      sendLoop writes rest

/-- `send_message_to_channel`: writes `PASS`, `NICK`, `JOIN`, runs the
join-wait loop (answering `PING` with `PONG`), then either fails with the
"could not join channel" error or sends the `PRIVMSG`. -/
def sendMessageToChannel (nickname oauth channel message : String)
    (serverLines : List String) : List String × Except String Unit :=
  let w0 := ["PASS oauth:" ++ oauth ++ "\n",
             "NICK " ++ nickname ++ "\n",
             "JOIN #" ++ channel ++ "\r\n"]
  let wj := sendLoop w0 serverLines
  if wj.2 then
    (wj.1 ++ ["PRIVMSG #" ++ channel ++ " :" ++ message ++ "\r\n"], Except.ok ())
  else
    (wj.1, Except.error "Не удалось войти в канал")

/-! ## `app.rs` : state, messages, effects, randomness oracle -/

/-- The state fields of `App` (the `text_editor::Content` widget state is
not modelled; the `messages` list it feeds is). -/
structure AppState where
  message : String
  bots : List Bot
  chat_history : List String
  channel : String
  messages : List String
  random_messages_enabled : Bool
  min_interval : Nat
  max_interval : Nat
  next_message_time : Option Nat
  last_message_time : Option Nat
  all_bots_mode : Bool
  simultaneous_mode : Bool
  min_bot_delay : Nat
  max_bot_delay : Nat
  multiple_bots_mode : Bool
  multiple_bots_count : Nat
  clear_after_send : Bool
  viewing_bot_chat : Option Nat
  bot_message_input : String
  search_query : String
deriving DecidableEq, Repr

/-- `App::new`. -/
def AppState.init : AppState :=
  { message := "", bots := [], chat_history := [], channel := "",
    messages := [], random_messages_enabled := false,
    min_interval := 30, max_interval := 120,
    next_message_time := Option.none, last_message_time := Option.none,
    all_bots_mode := false, simultaneous_mode := true,
    min_bot_delay := 1, max_bot_delay := 3,
    multiple_bots_mode := false, multiple_bots_count := 3,
    clear_after_send := false, viewing_bot_chat := Option.none,
    bot_message_input := "", search_query := "" }

instance {ε α : Type} [DecidableEq ε] [DecidableEq α] : DecidableEq (Except ε α) :=
  fun x y =>
    match x, y with
    | Except.ok a, Except.ok b =>
      if h : a = b then isTrue (by rw [h]) else isFalse (by simp [h])
    | Except.error a, Except.error b =>
      if h : a = b then isTrue (by rw [h]) else isFalse (by simp [h])
    | Except.ok _, Except.error _ => isFalse (by simp)
    | Except.error _, Except.ok _ => isFalse (by simp)

/-- The `Message` enum of `app.rs` (the `text_editor::Action` payload of
`MessagesEditorAction` is represented by the resulting editor text). -/
inductive Msg where
  | None
  | LoadedMessages (content : String)
  | LoadedConfig (content : String)
  | BotChecked (index : Nat) (flag : Bool)
  | ToggleBotEnabled (index : Nat) (enabled : Bool)
  | LoadMessagesPress
  | LoadConfigPress
  | CheckBotsPress
  | MessageUpdated (s : String)
  | ChannelNameUpdated (s : String)
  | MessageSent (index : Nat) (result : Except String Unit)
  | SendMessage (index : Nat)
  | SendMessageAllBots
  | SendMessageRandomBot
  | ToggleRandomMessages (enabled : Bool)
  | MinIntervalUpdated (value : String)
  | MaxIntervalUpdated (value : String)
  | Tick (tnow : Nat)
  | SendRandomMessage
  | SendRandomMessageNow
  | ToggleAllBotsMode (enabled : Bool)
  | ToggleSimultaneousMode (enabled : Bool)
  | MinBotDelayUpdated (value : String)
  | MaxBotDelayUpdated (value : String)
  | ToggleMultipleBotsMode (enabled : Bool)
  | MultipleBotsCountUpdated (value : String)
  | ToggleClearAfterSend (enabled : Bool)
  | MessagesEditorAction (editorText : String)
  | ToggleBotChatView (index : Nat)
  | CloseBotChatView
  | BotMessageUpdated (s : String)
  | SendBotMessage (index : Nat)
  | ClearBotHistory (index : Nat)
  | ClearGlobalHistory
  | ClearAllHistory
  | SearchQueryUpdated (query : String)
  | MessageClicked (index : Nat)
deriving DecidableEq, Repr

/-- One network send task: `Task::perform(async { bot.send_message(...) }, ...)`
with an optional staggering sleep before the send. -/
structure SendTask where
  botIndex : Nat
  name : String
  token : String
  channel : String
  message : String
  delaySec : Nat
deriving DecidableEq, Repr

/-- A task launched by `update` (the data captured in its closure). -/
inductive Eff where
  | send (t : SendTask)
  | done (m : Msg)
  | probe (botIndex : Nat)
  | pickFile
deriving DecidableEq, Repr

/-- The randomness consumed by one `update` call, split per call site.
`shuffleBots`/`shuffleMsgsAt` stand for `SliceRandom::shuffle`;
`Oracle.Valid` (below) records that shuffling permutes its input. -/
structure Oracle where
  botPick : Nat
  msgPick : Nat
  msgPickAt : Nat → Nat
  delayEntropy : Nat → Nat
  intervalEntropy : Nat
  shuffleBots : List Nat → List Nat
  shuffleMsgsAt : Nat → List String → List String

/-- Rust's in-place `shuffle` reorders a vector, so the oracle's shuffle
functions must produce permutations of their input. -/
def Oracle.Valid (o : Oracle) : Prop :=
  (∀ l, (o.shuffleBots l).Perm l) ∧ (∀ i l, (o.shuffleMsgsAt i l).Perm l)

/-- `format!("[{}] {}", name, msg)`. -/
def histUser (name msg : String) : String := "[" ++ name ++ "] " ++ msg

/-- The marker prefixed to machine-originated (random-pick) log entries.
The four characters are the source file's literal bytes. -/
def randTag : String := "üé≤ "

/-- `format!("[<tag> {}] {}", name, msg)` used by the random-send paths. -/
def histRand (name msg : String) : String := "[" ++ randTag ++ name ++ "] " ++ msg

/-- The error marker of `Message::MessageSent` (source file's literal bytes). -/
def errTag : String := "‚ùå Error: "

/-- `self.bots.get_mut(i)` followed by a mutation. -/
def modifyBot (bots : List Bot) (i : Nat) (f : Bot → Bot) : List Bot :=
  match bots.get? i with
  | Option.some b => bots.set i (f b)
  | Option.none => bots

/-- `Bot::add_to_history`. -/
def pushHistory (entry : String) (b : Bot) : Bot :=
  { b with chat_history := b.chat_history ++ [entry] }

/-- The eligible-candidate computation repeated before every multi-bot
dispatch: indices of bots with `available && enable`. -/
def availableBots (bots : List Bot) : List Nat :=
  (bots.enum.filter (fun p => p.2.available && p.2.enable)).map (fun p => p.1)

/-- `App::schedule_next_message` (panics, i.e. `none`, when
`min_interval > max_interval`). -/
def scheduleNextMessage (st : AppState) (o : Oracle) (now : Nat) : Option AppState :=
  match randRange st.min_interval st.max_interval o.intervalEntropy with
  | Option.some interval =>
    Option.some { st with next_message_time := Option.some (now + interval) }
  | Option.none => Option.none

/-- `if self.random_messages_enabled { self.schedule_next_message(); }`. -/
def rescheduleIf (st : AppState) (o : Oracle) (now : Nat) : Option AppState :=
  if st.random_messages_enabled then scheduleNextMessage st o now else Option.some st

/-- The shared loop of `SendMessageAllBots` and the `all_bots_mode` branch of
`SendRandomMessage`: iterate over the enumerated eligible indices, append a
log entry to the global log and the bot's history, and launch one send task
per target, staggered by `random_range(min..=max) * delay_index` when not
simultaneous.  `tag` selects the random-pick entry format. -/
def dispatchLoop (ch msgTxt : String) (simult : Bool) (lo hi : Nat)
    (de : Nat → Nat) (tag : Bool) :
    List (Nat × Nat) → List Bot → List String →
    Option (List Bot × List String × List Eff)
  | [], bots, chat => Option.some (bots, chat, [])
  | (k, bi) :: rest, bots, chat =>
    match bots.get? bi with
    | Option.none => dispatchLoop ch msgTxt simult lo hi de tag rest bots chat
    | Option.some bot =>
      let entry := if tag then histRand bot.name msgTxt else histUser bot.name msgTxt
      let bots' := modifyBot bots bi (pushHistory entry)
      let dOpt : Option Nat :=
        if simult then Option.some 0
        else (randRange lo hi (de k)).map (fun u => u * k)
      match dOpt with
      | Option.none => Option.none
      | Option.some d =>
        match dispatchLoop ch msgTxt simult lo hi de tag rest bots' (chat ++ [entry]) with
        | Option.none => Option.none
        | Option.some (b2, c2, effs) =>
          Option.some (b2, c2,
            Eff.send ⟨bi, bot.name, bot.token, ch, msgTxt, d⟩ :: effs)

/-- The `multiple_bots_mode` loop of `SendRandomMessage`: for `i` in
`0..bots_to_use`, target `shuffled_bots[i]`; the message for target `i` is
taken from a fresh shuffle of the pool when `messages.len() > i`
(index `i % len`, panicking on an empty shuffle result), otherwise drawn
uniformly from the pool. -/
def multiLoop (ch : String) (msgs : List String) (simult : Bool) (lo hi : Nat)
    (o : Oracle) (shuffled : List Nat) :
    List Nat → List Bot → List String →
    Option (List Bot × List String × List Eff)
  | [], bots, chat => Option.some (bots, chat, [])
  | i :: rest, bots, chat =>
    let bi := shuffled.getD i 0
    match bots.get? bi with
    | Option.none => multiLoop ch msgs simult lo hi o shuffled rest bots chat
    | Option.some bot =>
      let mOpt : Option String :=
        if msgs.length > i then
          let sm := o.shuffleMsgsAt i msgs
          if sm.isEmpty then Option.none
          else Option.some (sm.getD (i % sm.length) "")
        else
          (randBelow msgs.length (o.msgPickAt i)).map (fun j => msgs.getD j "")
      match mOpt with
      | Option.none => Option.none
      | Option.some msgTxt =>
        let entry := histRand bot.name msgTxt
        let bots' := modifyBot bots bi (pushHistory entry)
        let dOpt : Option Nat :=
          if simult then Option.some 0
          else (randRange lo hi (o.delayEntropy i)).map (fun u => u * i)
        match dOpt with
        | Option.none => Option.none
        | Option.some d =>
          match multiLoop ch msgs simult lo hi o shuffled rest bots' (chat ++ [entry]) with
          | Option.none => Option.none
          | Option.some (b2, c2, effs) =>
            Option.some (b2, c2,
              Eff.send ⟨bi, bot.name, bot.token, ch, msgTxt, d⟩ :: effs)

/-- `str::trim_start_matches(randTag)` on character data: strip every
leading occurrence of the random marker. -/
def stripRandTagData (s : List Char) : List Char :=
  if h : randTag.data ≠ [] ∧ randTag.data.isPrefixOf s then
    stripRandTagData (s.drop randTag.data.length)
  else s
termination_by s.length
decreasing_by
  have hp : 0 < randTag.data.length := List.length_pos.mpr h.1
  have hs : 0 < s.length := by
    cases s with
    | nil =>
      have h2 := h.2
      rw [List.isPrefixOf_iff_prefix] at h2
      have := List.eq_nil_of_prefix_nil h2
      exact absurd this h.1
    | cons c cs => simp
  simp only [List.length_drop]
  omega

/-- `App::extract_bot_name_from_message`: text between the first `'['` and
the first `']'`, with the random marker stripped from the front and
whitespace trimmed.  (Indices are character positions; `none` also covers
the inverted-slice panic.) -/
def extractBotName (message : String) : Option String :=
  match message.data.indexOf? '[', message.data.indexOf? ']' with
  | Option.some s, Option.some e =>
    if s + 1 ≤ e then
      let part := (message.data.drop (s + 1)).take (e - (s + 1))
      Option.some (strTrim (String.mk (stripRandTagData part)))
    else Option.none
  | _, _ => Option.none

/-- `App::update`, one message step.  Arguments: pre-state, global
`BOT_COUNTER` value, randomness oracle, the value `Instant::now()` would
return during this call, and the message.  Returns `none` on panic,
otherwise the post-state, the counter, and the launched tasks. -/
def update (st : AppState) (cnt : Nat) (o : Oracle) (now : Nat) (m : Msg) :
    Option (AppState × Nat × List Eff) :=
  match m with
  | Msg.None => Option.some (st, cnt, [])
  | Msg.MessageUpdated s => Option.some ({ st with message := s }, cnt, [])
  | Msg.LoadConfigPress => Option.some (st, cnt, [Eff.pickFile])
  | Msg.LoadedConfig content =>
    let bc := createBots (linesOf content) cnt
    Option.some ({ st with bots := bc.1 }, bc.2, [])
  | Msg.CheckBotsPress =>
    Option.some (st, cnt, (List.range st.bots.length).map Eff.probe)
  | Msg.BotChecked index flag =>
    let bots' := modifyBot st.bots index (fun b => { b with available := flag })
    Option.some ({ st with bots := bots' }, cnt, [])
  | Msg.ToggleBotEnabled index enabled =>
    let bots' := modifyBot st.bots index (fun b => { b with enable := enabled })
    Option.some ({ st with bots := bots' }, cnt, [])
  | Msg.SendMessage index =>
    match st.bots.get? index with
    | Option.none => Option.some (st, cnt, [])
    | Option.some bot =>
      if !bot.available || !bot.enable then Option.some (st, cnt, [])
      else
        let entry := histUser bot.name st.message
        let st1 := { st with
          chat_history := st.chat_history ++ [entry],
          bots := modifyBot st.bots index (pushHistory entry) }
        let st2 := if st.clear_after_send then { st1 with message := "" } else st1
        Option.some (st2, cnt,
          [Eff.send ⟨index, bot.name, bot.token, st.channel, st.message, 0⟩])
  | Msg.SendMessageRandomBot =>
    if st.message.isEmpty || st.channel.isEmpty then Option.some (st, cnt, [])
    else
      let avail := availableBots st.bots
      if avail.isEmpty then Option.some (st, cnt, [])
      else
        match randBelow avail.length o.botPick with
        | Option.none => Option.none
        | Option.some j =>
          let botIndex := avail.getD j 0
          match st.bots.get? botIndex with
          | Option.none => Option.some (st, cnt, [])
          | Option.some bot =>
            let entry := histRand bot.name st.message
            let st1 := { st with
              chat_history := st.chat_history ++ [entry],
              bots := modifyBot st.bots botIndex (pushHistory entry) }
            let st2 := if st.clear_after_send then { st1 with message := "" } else st1
            Option.some (st2, cnt,
              [Eff.send ⟨botIndex, bot.name, bot.token, st.channel, st.message, 0⟩])
  | Msg.SendMessageAllBots =>
    if st.message.isEmpty || st.channel.isEmpty then Option.some (st, cnt, [])
    else
      let avail := availableBots st.bots
      if avail.isEmpty then Option.some (st, cnt, [])
      else
        match dispatchLoop st.channel st.message st.simultaneous_mode
            st.min_bot_delay st.max_bot_delay o.delayEntropy false
            avail.enum st.bots st.chat_history with
        | Option.none => Option.none
        | Option.some (bots', chat', effs) =>
          let st1 := { st with bots := bots', chat_history := chat' }
          let st2 := if st.clear_after_send then { st1 with message := "" } else st1
          Option.some (st2, cnt, effs)
  | Msg.MessageSent index result =>
    match result with
    | Except.ok _ => Option.some (st, cnt, [])
    | Except.error e =>
      let errMsg := errTag ++ e
      Option.some ({ st with
        chat_history := st.chat_history ++ [errMsg],
        bots := modifyBot st.bots index (pushHistory errMsg) }, cnt, [])
  | Msg.ChannelNameUpdated name => Option.some ({ st with channel := name }, cnt, [])
  | Msg.LoadedMessages content =>
    Option.some ({ st with
      messages := (linesOf content).filter (fun l => !(strTrim l).isEmpty) }, cnt, [])
  | Msg.LoadMessagesPress => Option.some (st, cnt, [Eff.pickFile])
  | Msg.ToggleRandomMessages enabled =>
    let st1 := { st with random_messages_enabled := enabled }
    if enabled then
      match scheduleNextMessage st1 o now with
      | Option.some st2 => Option.some (st2, cnt, [])
      | Option.none => Option.none
    else
      Option.some ({ st1 with next_message_time := Option.none }, cnt, [])
  | Msg.MinIntervalUpdated value =>
    match value.toNat? with
    | Option.some v => Option.some ({ st with min_interval := v }, cnt, [])
    | Option.none => Option.some (st, cnt, [])
  | Msg.MaxIntervalUpdated value =>
    match value.toNat? with
    | Option.some v => Option.some ({ st with max_interval := v }, cnt, [])
    | Option.none => Option.some (st, cnt, [])
  | Msg.Tick tnow =>
    if st.random_messages_enabled then
      match st.next_message_time with
      | Option.some t =>
        if t ≤ tnow then Option.some (st, cnt, [Eff.done Msg.SendRandomMessage])
        else Option.some (st, cnt, [])
      | Option.none => Option.some (st, cnt, [])
    else Option.some (st, cnt, [])
  | Msg.SendRandomMessageNow =>
    Option.some ({ st with next_message_time := Option.none }, cnt,
      [Eff.done Msg.SendRandomMessage])
  | Msg.SendRandomMessage =>
    if st.messages.isEmpty || st.channel.isEmpty then Option.some (st, cnt, [])
    else
      let avail := availableBots st.bots
      if avail.isEmpty then Option.some (st, cnt, [])
      else if st.multiple_bots_mode then
        let botsToUse := min st.multiple_bots_count avail.length
        let shuffled := o.shuffleBots avail
        match multiLoop st.channel st.messages st.simultaneous_mode
            st.min_bot_delay st.max_bot_delay o shuffled
            (List.range botsToUse) st.bots st.chat_history with
        | Option.none => Option.none
        | Option.some (bots', chat', effs) =>
          let st1 := { st with
            bots := bots', chat_history := chat',
            last_message_time := Option.some now }
          match rescheduleIf st1 o now with
          | Option.none => Option.none
          | Option.some st2 => Option.some (st2, cnt, effs)
      else if st.all_bots_mode then
        match randBelow st.messages.length o.msgPick with
        | Option.none => Option.none
        | Option.some mi =>
          let msgTxt := st.messages.getD mi ""
          match dispatchLoop st.channel msgTxt st.simultaneous_mode
              st.min_bot_delay st.max_bot_delay o.delayEntropy true
              avail.enum st.bots st.chat_history with
          | Option.none => Option.none
          | Option.some (bots', chat', effs) =>
            let st1 := { st with
              bots := bots', chat_history := chat',
              last_message_time := Option.some now }
            match rescheduleIf st1 o now with
            | Option.none => Option.none
            | Option.some st2 => Option.some (st2, cnt, effs)
      else
        match randBelow st.messages.length o.msgPick with
        | Option.none => Option.none
        | Option.some mi =>
          let msgTxt := st.messages.getD mi ""
          match randBelow avail.length o.botPick with
          | Option.none => Option.none
          | Option.some j =>
            let botIndex := avail.getD j 0
            match st.bots.get? botIndex with
            | Option.none => Option.some (st, cnt, [])
            | Option.some bot =>
              let entry := histRand bot.name msgTxt
              let st1 := { st with
                chat_history := st.chat_history ++ [entry],
                bots := modifyBot st.bots botIndex (pushHistory entry),
                last_message_time := Option.some now }
              match rescheduleIf st1 o now with
              | Option.none => Option.none
              | Option.some st2 =>
                Option.some (st2, cnt,
                  [Eff.send ⟨botIndex, bot.name, bot.token, st.channel, msgTxt, 0⟩])
  | Msg.ToggleAllBotsMode enabled =>
    let st1 := { st with all_bots_mode := enabled }
    let st2 := if enabled && st1.multiple_bots_mode then
        { st1 with multiple_bots_mode := false } else st1
    Option.some (st2, cnt, [])
  | Msg.ToggleSimultaneousMode enabled =>
    Option.some ({ st with simultaneous_mode := enabled }, cnt, [])
  | Msg.MinBotDelayUpdated value =>
    match value.toNat? with
    | Option.some v => Option.some ({ st with min_bot_delay := v }, cnt, [])
    | Option.none => Option.some (st, cnt, [])
  | Msg.MaxBotDelayUpdated value =>
    match value.toNat? with
    | Option.some v => Option.some ({ st with max_bot_delay := v }, cnt, [])
    | Option.none => Option.some (st, cnt, [])
  | Msg.ToggleMultipleBotsMode enabled =>
    let st1 := { st with multiple_bots_mode := enabled }
    let st2 := if enabled && st1.all_bots_mode then
        { st1 with all_bots_mode := false } else st1
    Option.some (st2, cnt, [])
  | Msg.MultipleBotsCountUpdated value =>
    match value.toNat? with
    | Option.some v =>
      if 0 < v then Option.some ({ st with multiple_bots_count := v }, cnt, [])
      else Option.some (st, cnt, [])
    | Option.none => Option.some (st, cnt, [])
  | Msg.ToggleClearAfterSend enabled =>
    Option.some ({ st with clear_after_send := enabled }, cnt, [])
  | Msg.MessagesEditorAction editorText =>
    Option.some ({ st with
      messages := (linesOf editorText).filter (fun l => !(strTrim l).isEmpty) }, cnt, [])
  | Msg.ToggleBotChatView index =>
    Option.some ({ st with
      viewing_bot_chat := Option.some index,
      bot_message_input := "" }, cnt, [])
  | Msg.CloseBotChatView =>
    Option.some ({ st with
      viewing_bot_chat := Option.none,
      bot_message_input := "" }, cnt, [])
  | Msg.BotMessageUpdated s =>
    Option.some ({ st with bot_message_input := s }, cnt, [])
  | Msg.SendBotMessage index =>
    if st.bot_message_input.isEmpty || st.channel.isEmpty then
      Option.some (st, cnt, [])
    else
      match st.bots.get? index with
      | Option.none => Option.some (st, cnt, [])
      | Option.some bot =>
        if !bot.available || !bot.enable then Option.some (st, cnt, [])
        else
          let entry := histUser bot.name st.bot_message_input
          Option.some ({ st with
            chat_history := st.chat_history ++ [entry],
            bots := modifyBot st.bots index (pushHistory entry),
            bot_message_input := "" }, cnt,
            [Eff.send ⟨index, bot.name, bot.token, st.channel,
              st.bot_message_input, 0⟩])
  | Msg.ClearBotHistory index =>
    let bots' := modifyBot st.bots index (fun b => { b with chat_history := [] })
    Option.some ({ st with bots := bots' }, cnt, [])
  | Msg.ClearGlobalHistory =>
    Option.some ({ st with chat_history := [] }, cnt, [])
  | Msg.ClearAllHistory =>
    Option.some ({ st with
      chat_history := [],
      bots := st.bots.map (fun b => { b with chat_history := [] }) }, cnt, [])
  | Msg.SearchQueryUpdated query =>
    Option.some ({ st with search_query := query }, cnt, [])
  | Msg.MessageClicked index =>
    match st.chat_history.get? index with
    | Option.none => Option.some (st, cnt, [])
    | Option.some msg =>
      match extractBotName msg with
      | Option.none => Option.some (st, cnt, [])
      | Option.some botName =>
        match st.bots.findIdx? (fun b => b.name == botName) with
        | Option.none => Option.some (st, cnt, [])
        | Option.some botIdx =>
          Option.some ({ st with
            viewing_bot_chat := Option.some botIdx,
            bot_message_input := "" }, cnt, [])

/-! ## Concrete fixtures used by witnesses and counterexamples -/

/-- A deterministic oracle: zero entropy, identity shuffles. -/
def oZero : Oracle :=
  { botPick := 0, msgPick := 0, msgPickAt := fun _ => 0,
    delayEntropy := fun _ => 0, intervalEntropy := 0,
    shuffleBots := fun l => l, shuffleMsgsAt := fun _ l => l }

theorem oZero_valid : oZero.Valid :=
  ⟨fun _ => List.Perm.refl _, fun _ _ => List.Perm.refl _⟩

/-- An eligible bot fixture. -/
def botFix (nm : String) : Bot :=
  { name := nm, token := "tok", available := true, enable := true,
    chat_history := [] }

/-! ## Claim C9 : connectivity probe -/

/-- C9: for every connectivity probe, `test_irc_connection` never
propagates an error past its boundary (it always returns `Ok`), it returns
`true` iff the read response contains a welcome indicator (the literal
`":tmi.twitch.tv 001"` for numeric 001, or `"Welcome"`), and it returns
`false` on an authentication-failure indicator, on the 10-second timeout,
on any I/O error, and on any other response. -/
theorem probe_total_and_welcome_iff (o : ProbeOutcome) :
    (testIrcConnection o = Except.ok true ∨ testIrcConnection o = Except.ok false)
    ∧ (testIrcConnection o = Except.ok true ↔
        ∃ r, o = ProbeOutcome.response r ∧ welcomeResp r = true) := by
  cases o with
  | timeout => simp [testIrcConnection]
  | ioError => simp [testIrcConnection]
  | response r =>
    by_cases h : welcomeResp r = true
    · simp [testIrcConnection, h]
    · have hf : welcomeResp r = false := by simpa using h
      constructor
      · right; simp [testIrcConnection, hf]
      · constructor
        · intro hc
          exfalso
          simp [testIrcConnection, hf] at hc
        · rintro ⟨r', hr', hw⟩
          cases hr'
          exact absurd hw h

/-! ## Claim C2 : interval/delay bounds (corrected: panic, not clamp) -/

/-- C2 (amended): when `min ≤ max`, computing the next scheduled fire time
or a per-bot stagger delay draw succeeds and yields a value within the
bounds; but a violated `min ≤ max` bound makes the draw panic
(`rand`'s `random_range` aborts on an empty range) — the code does not
clamp. -/
theorem schedule_and_delay_draw_behavior (st : AppState) (o : Oracle) (now : Nat) :
    (st.min_interval ≤ st.max_interval →
      ∃ w, st.min_interval ≤ w ∧ w ≤ st.max_interval ∧
        scheduleNextMessage st o now =
          Option.some { st with next_message_time := Option.some (now + w) })
    ∧ (st.max_interval < st.min_interval →
        scheduleNextMessage st o now = Option.none)
    ∧ (st.min_bot_delay ≤ st.max_bot_delay → ∀ k,
        ∃ u, st.min_bot_delay ≤ u ∧ u ≤ st.max_bot_delay ∧
          randRange st.min_bot_delay st.max_bot_delay (o.delayEntropy k) =
            Option.some u)
    ∧ (st.max_bot_delay < st.min_bot_delay → ∀ k,
        randRange st.min_bot_delay st.max_bot_delay (o.delayEntropy k) =
          Option.none) := by
  refine ⟨?_, ?_, ?_, ?_⟩
  · intro h
    obtain ⟨u, hu, h1, h2⟩ := randRange_le st.min_interval st.max_interval
      o.intervalEntropy h
    exact ⟨u, h1, h2, by simp [scheduleNextMessage, hu]⟩
  · intro h
    simp [scheduleNextMessage, randRange_empty _ _ _ h]
  · intro h k
    obtain ⟨u, hu, h1, h2⟩ := randRange_le st.min_bot_delay st.max_bot_delay
      (o.delayEntropy k) h
    exact ⟨u, h1, h2, hu⟩
  · intro h k
    exact randRange_empty _ _ _ h

/-- C2 witness: the default state (`30 ≤ 120`) schedules successfully. -/
theorem schedule_and_delay_draw_behavior_witness :
    ∃ w, AppState.init.min_interval ≤ w ∧ w ≤ AppState.init.max_interval ∧
      scheduleNextMessage AppState.init oZero 5 =
        Option.some { AppState.init with next_message_time := Option.some (5 + w) } :=
  (schedule_and_delay_draw_behavior AppState.init oZero 5).1 (by decide)

/-- The interval bounds violated: `min_interval = 2 > 1 = max_interval`. -/
def stIntervalBad : AppState :=
  { AppState.init with min_interval := 2, max_interval := 1 }

/-- C2 counterexample: enabling the scheduler with
`min_interval = 2 > 1 = max_interval` panics (`none`) instead of clamping,
refuting "computing the next scheduled fire time ... does not panic". -/
theorem schedule_empty_range_panics :
    update stIntervalBad 1 oZero 0 (Msg.ToggleRandomMessages true) =
      Option.none := by
  rfl

/-! ## Claim C5 : join-wait failure sends no PRIVMSG -/

theorem replaceList_cons_of_isPre (pat rep s : List Char)
    (hne : pat ≠ []) (hp : pat.isPrefixOf s = true) :
    replaceList pat rep s = rep ++ replaceList pat rep (s.drop pat.length) := by
  cases s with
  | nil =>
    rw [List.isPrefixOf_iff_prefix] at hp
    exact absurd (List.eq_nil_of_prefix_nil hp) hne
  | cons c cs =>
    rw [replaceList]
    rw [dif_pos ⟨hne, hp⟩]

theorem privmsg_not_prefix_of_pong (rest : List Char) :
    List.isPrefixOf "PRIVMSG".data ('P' :: 'O' :: rest) = false := by
  show List.isPrefixOf ('P' :: 'R' :: "IVMSG".data) ('P' :: 'O' :: rest) = false
  rw [List.isPrefixOf_cons₂, List.isPrefixOf_cons₂]
  have h1 : ('R' == 'O') = false := by decide
  simp [h1]

theorem privmsg_not_prefix_first (c : Char) (h : ('P' == c) = false)
    (rest : List Char) :
    List.isPrefixOf "PRIVMSG".data (c :: rest) = false := by
  show List.isPrefixOf ('P' :: "RIVMSG".data) (c :: rest) = false
  rw [List.isPrefixOf_cons₂]
  simp [h]

theorem privmsg_not_prefix_second (c : Char) (h : ('R' == c) = false)
    (rest : List Char) :
    List.isPrefixOf "PRIVMSG".data ('P' :: c :: rest) = false := by
  show List.isPrefixOf ('P' :: 'R' :: "IVMSG".data) ('P' :: c :: rest) = false
  rw [List.isPrefixOf_cons₂, List.isPrefixOf_cons₂]
  simp [h]

theorem pong_write_not_privmsg (l : String) (h : strHasPrefix "PING" l = true) :
    strHasPrefix "PRIVMSG" (strReplace l "PING" "PONG") = false := by
  show List.isPrefixOf "PRIVMSG".data
    (replaceList "PING".data "PONG".data l.data) = false
  rw [replaceList_cons_of_isPre _ _ _ (by decide) h]
  show List.isPrefixOf "PRIVMSG".data
    ('P' :: 'O' :: ("NG".data ++ (l.data.drop "PING".data.length))) = false
  exact privmsg_not_prefix_of_pong _

/-- During a join wait that never sees a join confirmation, the loop ends
with `joined = false` and only adds `PONG` replies to the write trace. -/
theorem sendLoop_no_join (lines : List String)
    (h : ∀ l ∈ lines,
      containsSub l "366" = false ∧ containsSub l "End of /NAMES list" = false) :
    ∀ ws, (sendLoop ws lines).2 = false ∧
      ∀ w ∈ (sendLoop ws lines).1, w ∈ ws ∨
        ∃ l, strHasPrefix "PING" l = true ∧ w = strReplace l "PING" "PONG" := by
  induction lines with
  | nil => intro ws; exact ⟨rfl, fun w hw => Or.inl hw⟩
  | cons l rest ih =>
    intro ws
    have hl := h l (by simp)
    have hrest : ∀ l' ∈ rest,
        containsSub l' "366" = false ∧ containsSub l' "End of /NAMES list" = false :=
      fun l' hl' => h l' (by simp [hl'])
    simp only [sendLoop, hl.1, hl.2, Bool.or_self, if_false]
    by_cases hp : strHasPrefix "PING" l = true
    · simp only [hp, if_true]
      refine ⟨((ih hrest) _).1, ?_⟩
      intro w hw
      rcases ((ih hrest) (ws ++ [strReplace l "PING" "PONG"])).2 w hw with hin | hex
      · rcases List.mem_append.mp hin with h1 | h2
        · exact Or.inl h1
        · right
          refine ⟨l, hp, ?_⟩
          simpa using h2
      · exact Or.inr hex
    · have hp' : strHasPrefix "PING" l = false := by simpa using hp
      simp only [hp', if_false]
      refine ⟨((ih hrest) ws).1, ?_⟩
      intro w hw
      exact ((ih hrest) ws).2 w hw

/-- C5: for every send in which no server line read during the join wait
contains `"366"` or `"End of /NAMES list"`, `send_message_to_channel`
returns the "could not join channel" failure and writes no `PRIVMSG` line
to the connection (the written lines are exactly `PASS`, `NICK`, `JOIN`
and `PONG` replies, none of which begins with `PRIVMSG`). -/
theorem join_timeout_no_privmsg (nickname oauth channel message : String)
    (serverLines : List String)
    (h : ∀ l ∈ serverLines,
      containsSub l "366" = false ∧ containsSub l "End of /NAMES list" = false) :
    (sendMessageToChannel nickname oauth channel message serverLines).2 =
      Except.error "Не удалось войти в канал" ∧
    ∀ w ∈ (sendMessageToChannel nickname oauth channel message serverLines).1,
      strHasPrefix "PRIVMSG" w = false := by
  have hloop := sendLoop_no_join serverLines h
    ["PASS oauth:" ++ oauth ++ "\n", "NICK " ++ nickname ++ "\n",
     "JOIN #" ++ channel ++ "\r\n"]
  constructor
  · simp [sendMessageToChannel, hloop.1]
  · intro w hw
    simp only [sendMessageToChannel, hloop.1, Bool.false_eq_true, if_false] at hw
    rcases hloop.2 w hw with hin | ⟨l, hping, rfl⟩
    · simp only [List.mem_cons, List.not_mem_nil, or_false] at hin
      rcases hin with h1 | h2 | h3
      · subst h1
        show List.isPrefixOf "PRIVMSG".data
          ('P' :: 'A' :: ("SS oauth:".data ++ (oauth ++ "\n").data)) = false
        exact privmsg_not_prefix_second 'A' (by decide) _
      · subst h2
        show List.isPrefixOf "PRIVMSG".data
          ('N' :: ("ICK ".data ++ (nickname ++ "\n").data)) = false
        exact privmsg_not_prefix_first 'N' (by decide) _
      · subst h3
        show List.isPrefixOf "PRIVMSG".data
          ('J' :: ("OIN #".data ++ (channel ++ "\r\n").data)) = false
        exact privmsg_not_prefix_first 'J' (by decide) _
    · exact pong_write_not_privmsg l hping

/-- C5 witness: a two-line server transcript (a `PING` and an unrelated
line) with no join confirmation fails and the join-wait hypothesis holds. -/
theorem join_timeout_no_privmsg_witness :
    (∀ l ∈ [":tmi.twitch.tv 421", "PING :tmi.twitch.tv"],
      containsSub l "366" = false ∧ containsSub l "End of /NAMES list" = false) ∧
    (sendMessageToChannel "alice" "tok" "chan" "hi"
      [":tmi.twitch.tv 421", "PING :tmi.twitch.tv"]).2 =
      Except.error "Не удалось войти в канал" :=
  ⟨by decide,
   (join_timeout_no_privmsg "alice" "tok" "chan" "hi"
     [":tmi.twitch.tv 421", "PING :tmi.twitch.tv"] (by decide)).1⟩

/-! ## Claim C6 : credential parser name synthesis -/

theorem parseLine_counter (line : String) (c : Nat) :
    (parseLine line c).2 = if needsSynth line then c + 1 else c := by
  unfold parseLine needsSynth
  cases h : splitOncePipe line.data with
  | none =>
    by_cases ht : (strTrim line).isEmpty <;> simp [ht]
  | some p =>
    obtain ⟨tok, np⟩ := p
    by_cases hn : (strTrim (String.mk np)).isEmpty <;> simp [hn]

theorem parseLine_synth (line : String) (c : Nat) (h : needsSynth line = true) :
    ∃ tk, (parseLine line c).1 = Option.some (Bot.new ("bot_" ++ Nat.repr c) tk) := by
  unfold parseLine
  unfold needsSynth at h
  cases hs : splitOncePipe line.data with
  | none =>
    rw [hs] at h
    have h' : (strTrim line).isEmpty = false := by
      have h2 : (!(strTrim line).isEmpty) = true := h
      simpa using h2
    exact ⟨strTrim line, by simp [h']⟩
  | some p =>
    obtain ⟨tok, np⟩ := p
    rw [hs] at h
    have h' : (strTrim (String.mk np)).isEmpty = true := h
    exact ⟨strTrim (String.mk tok), by simp [h']⟩

theorem parseLine_given (line : String) (c : Nat) (nm : String)
    (h : givenName line = Option.some nm) :
    (∃ tk, (parseLine line c).1 = Option.some (Bot.new nm tk)) ∧
      (parseLine line c).2 = c := by
  unfold givenName at h
  unfold parseLine
  cases hs : splitOncePipe line.data with
  | none =>
    rw [hs] at h
    exact absurd h (by simp)
  | some p =>
    obtain ⟨tok, np⟩ := p
    rw [hs] at h
    have h' : (if (strTrim (String.mk np)).isEmpty = true then Option.none
        else Option.some (strTrim (String.mk np))) = Option.some nm := h
    by_cases hn : (strTrim (String.mk np)).isEmpty = true
    · rw [if_pos hn] at h'
      exact absurd h' (by simp)
    · rw [if_neg hn] at h'
      have hnm : strTrim (String.mk np) = nm := Option.some.inj h'
      subst hnm
      have hn' : (strTrim (String.mk np)).isEmpty = false := by simpa using hn
      exact ⟨⟨strTrim (String.mk tok), by simp [hn']⟩, by simp [hn']⟩

theorem parseLine_blank (line : String) (c : Nat) (h : isBlankLine line = true) :
    (parseLine line c).1 = Option.none ∧ (parseLine line c).2 = c := by
  unfold isBlankLine at h
  unfold parseLine
  cases hs : splitOncePipe line.data with
  | none =>
    rw [hs] at h
    have h' : (strTrim line).isEmpty = true := h
    exact ⟨by simp [h'], by simp [h']⟩
  | some p =>
    rw [hs] at h
    exact absurd h (by simp)

theorem synthCount_cons (line : String) (rest : List String) :
    synthCount (line :: rest) =
      if needsSynth line then synthCount rest + 1 else synthCount rest := by
  by_cases h : needsSynth line <;> simp [synthCount, List.filter_cons, h]

theorem createBots_counter (lines : List String) :
    ∀ c, (createBots lines c).2 = c + synthCount lines := by
  induction lines with
  | nil => intro c; simp [createBots, synthCount]
  | cons line rest ih =>
    intro c
    show (createBots rest (parseLine line c).2).2 = _
    rw [ih, parseLine_counter, synthCount_cons]
    by_cases h : needsSynth line <;> simp [h] <;> omega

theorem synthNames_eq (lines : List String) :
    ∀ c, synthNames lines c =
      (List.range (synthCount lines)).map (fun j => "bot_" ++ Nat.repr (c + j)) := by
  induction lines with
  | nil => intro c; simp [synthNames, synthCount]
  | cons line rest ih =>
    intro c
    rw [synthCount_cons]
    by_cases h : needsSynth line
    · simp only [synthNames, h, if_true, ih (c + 1)]
      rw [List.range_succ_eq_map]
      simp only [List.map_cons, List.map_map]
      refine congrArg₂ (· :: ·) ?_ ?_
      · simp
      · apply List.map_congr_left
        intro j _
        simp only [Function.comp_apply]
        congr 2
        omega
    · simp [synthNames, h, ih c]

theorem mem_synthNames (lines : List String) (c : Nat) (n : String) :
    n ∈ synthNames lines c ↔
      ∃ j, j < synthCount lines ∧ n = "bot_" ++ Nat.repr (c + j) := by
  rw [synthNames_eq]
  simp only [List.mem_map, List.mem_range]
  constructor
  · rintro ⟨j, hj, rfl⟩; exact ⟨j, hj, rfl⟩
  · rintro ⟨j, hj, rfl⟩; exact ⟨j, hj, rfl⟩

theorem synthNames_nodup (lines : List String) (c : Nat) :
    (synthNames lines c).Nodup := by
  rw [synthNames_eq]
  apply List.Nodup.map
  · intro j1 j2 hj
    have := botName_injective (c + j1) (c + j2) hj
    omega
  · exact List.nodup_range _

theorem synthNames_assigned (lines : List String) :
    ∀ c, ∀ n ∈ synthNames lines c,
      ∃ b ∈ (createBots lines c).1, b.name = n := by
  induction lines with
  | nil => intro c n hn; simp [synthNames] at hn
  | cons line rest ih =>
    intro c n hn
    by_cases h : needsSynth line
    · simp only [synthNames, h, if_true, List.mem_cons] at hn
      obtain ⟨tk, htk⟩ := parseLine_synth line c h
      have hcnt : (parseLine line c).2 = c + 1 := by
        rw [parseLine_counter]; simp [h]
      rcases hn with rfl | hn
      · refine ⟨Bot.new ("bot_" ++ Nat.repr c) tk, ?_, rfl⟩
        show _ ∈ (match (parseLine line c).1 with
          | Option.some b => b :: (createBots rest (parseLine line c).2).1
          | Option.none => (createBots rest (parseLine line c).2).1)
        rw [htk]
        simp
      · obtain ⟨b, hb, hbn⟩ := ih (c + 1) n hn
        refine ⟨b, ?_, hbn⟩
        show _ ∈ (match (parseLine line c).1 with
          | Option.some b => b :: (createBots rest (parseLine line c).2).1
          | Option.none => (createBots rest (parseLine line c).2).1)
        rw [htk, hcnt]
        simp [hb]
    · simp only [synthNames, h, if_false] at hn
      have hcnt : (parseLine line c).2 = c := by
        rw [parseLine_counter]; simp [h]
      obtain ⟨b, hb, hbn⟩ := ih c n hn
      refine ⟨b, ?_, hbn⟩
      show _ ∈ (match (parseLine line c).1 with
        | Option.some b => b :: (createBots rest (parseLine line c).2).1
        | Option.none => (createBots rest (parseLine line c).2).1)
      rw [hcnt]
      cases (parseLine line c).1 <;> simp [hb]

/-- C6: for every credential text and counter value: the process-wide
counter advances by exactly the number `k` of non-blank lines lacking a
non-blank name part; the `k` synthesized `bot_<n>` names are pairwise
distinct; each of them is assigned to a produced bot; they cannot collide
with the synthesized names of any later load (the counter never resets);
a line with a non-blank name after the first `'|'` yields a bot with that
trimmed name and does not advance the counter; and a blank line is
skipped entirely. -/
theorem credential_parser_names (text : String) (c : Nat) :
    ((createBots (linesOf text) c).2 = c + synthCount (linesOf text))
    ∧ (synthNames (linesOf text) c).Nodup
    ∧ (∀ n ∈ synthNames (linesOf text) c,
        ∃ b ∈ (createBots (linesOf text) c).1, b.name = n)
    ∧ (∀ text2 n, n ∈ synthNames (linesOf text) c →
        n ∉ synthNames (linesOf text2) (createBots (linesOf text) c).2)
    ∧ (∀ line rest nm, givenName line = Option.some nm →
        ∃ tk, (createBots (line :: rest) c).1 =
            Bot.new nm tk :: (createBots rest c).1 ∧
          (createBots (line :: rest) c).2 = (createBots rest c).2)
    ∧ (∀ line rest, isBlankLine line = true →
        createBots (line :: rest) c = createBots rest c) := by
  refine ⟨createBots_counter _ c, synthNames_nodup _ c,
    synthNames_assigned _ c, ?_, ?_, ?_⟩
  · intro text2 n hn hn2
    rw [createBots_counter] at hn2
    rw [mem_synthNames] at hn hn2
    obtain ⟨j1, hj1, rfl⟩ := hn
    obtain ⟨j2, hj2, heq⟩ := hn2
    have := botName_injective _ _ heq
    omega
  · intro line rest nm hnm
    obtain ⟨⟨tk, htk⟩, hcnt⟩ := parseLine_given line c nm hnm
    refine ⟨tk, ?_, ?_⟩
    · show (match (parseLine line c).1 with
        | Option.some b => b :: (createBots rest (parseLine line c).2).1
        | Option.none => (createBots rest (parseLine line c).2).1) = _
      rw [htk, hcnt]
    · show (createBots rest (parseLine line c).2).2 = _
      rw [hcnt]
  · intro line rest hb
    obtain ⟨h1, h2⟩ := parseLine_blank line c hb
    show (match (parseLine line c).1 with
      | Option.some b => b :: (createBots rest (parseLine line c).2).1
      | Option.none => (createBots rest (parseLine line c).2).1,
      (createBots rest (parseLine line c).2).2) = _
    rw [h1, h2]

/-- C6 witness: the end-to-end example `"abc123|Alice\nxyz789"` starting at
counter 1: the counter advances by one (one nameless line) and the
synthesized name `bot_1` is assigned to a produced bot. -/
theorem credential_parser_names_witness :
    ((createBots (linesOf "abc123|Alice\nxyz789") 1).2 =
      1 + synthCount (linesOf "abc123|Alice\nxyz789"))
    ∧ (∃ b ∈ (createBots (linesOf "abc123|Alice\nxyz789") 1).1,
        b.name = "bot_" ++ Nat.repr 1) :=
  ⟨(credential_parser_names "abc123|Alice\nxyz789" 1).1,
   (credential_parser_names "abc123|Alice\nxyz789" 1).2.2.1
     ("bot_" ++ Nat.repr 1) (by decide)⟩

/-! ## Claim C3 : scheduled fire with empty pool or channel
(corrected: the fire does *not* reschedule, it leaves `nextFireAt` as is) -/

/-- C3 (amended): in an armed-scheduler state where the message pool is
empty or no channel is configured, a scheduled fire performs no dispatch
and returns with the state completely unchanged — in particular
`next_message_time` is left exactly as it was (it is *not* recomputed; the
stale fire time remains, so every following tick re-attempts the fire).
The "nextFireAt is set iff enabled" invariant is preserved only because
the field is untouched. -/
theorem scheduled_fire_empty_noop (st : AppState) (cnt : Nat) (o : Oracle)
    (now : Nat) (hen : st.random_messages_enabled = true)
    (hempty : st.messages = [] ∨ st.channel = "") :
    update st cnt o now Msg.SendRandomMessage = Option.some (st, cnt, []) := by
  rcases hempty with h | h
  · simp [update, h]
  · have he : "".isEmpty = true := rfl
    simp [update, h, he]

/-- A concrete armed state with an empty pool and a pending fire time. -/
def stEmptyPool : AppState :=
  { AppState.init with
    random_messages_enabled := true
    channel := "chan"
    next_message_time := Option.some 5 }

/-- C3 counterexample: firing `SendRandomMessage` at `now = 100` on
`stEmptyPool` leaves `next_message_time` at the stale value `some 5`
(any recomputed value would be `≥ 100 + min_interval = 130`), refuting
"still recomputes nextFireAt to a new value". -/
theorem scheduled_fire_empty_keeps_stale_time :
    update stEmptyPool 1 oZero 100 Msg.SendRandomMessage =
      Option.some (stEmptyPool, 1, []) ∧
    stEmptyPool.next_message_time = Option.some 5 ∧
    stEmptyPool.random_messages_enabled = true ∧ 5 < 100 := by
  exact ⟨rfl, rfl, rfl, by norm_num⟩

/-- C3 witness for the amended theorem at a concrete armed state. -/
theorem scheduled_fire_empty_noop_witness :
    update stEmptyPool 1 oZero 100 Msg.SendRandomMessage =
      Option.some (stEmptyPool, 1, []) :=
  scheduled_fire_empty_noop stEmptyPool 1 oZero 100 rfl (Or.inl rfl)

/-! ## Helper lemmas about the app model -/

theorem modifyBot_length (bots : List Bot) (i : Nat) (f : Bot → Bot) :
    (modifyBot bots i f).length = bots.length := by
  unfold modifyBot
  cases h : bots.get? i <;> simp

theorem modifyBot_get?_ne (bots : List Bot) (i j : Nat) (f : Bot → Bot)
    (h : j ≠ i) :
    (modifyBot bots i f).get? j = bots.get? j := by
  unfold modifyBot
  cases hg : bots.get? i with
  | none => rfl
  | some b =>
    simp only [List.get?_eq_getElem?]
    exact List.getElem?_set_ne (Ne.symm h)

theorem modifyBot_get?_self (bots : List Bot) (i : Nat) (f : Bot → Bot) (b : Bot)
    (h : bots.get? i = Option.some b) :
    (modifyBot bots i f).get? i = Option.some (f b) := by
  unfold modifyBot
  rw [h]
  have hi : i < bots.length := by
    rw [List.get?_eq_getElem?] at h
    exact (List.getElem?_eq_some_iff.mp h).1
  simp only [List.get?_eq_getElem?]
  exact List.getElem?_set_self hi

theorem mem_availableBots (bots : List Bot) (i : Nat)
    (h : i ∈ availableBots bots) :
    ∃ b, bots.get? i = Option.some b ∧ b.available = true ∧ b.enable = true := by
  unfold availableBots at h
  simp only [List.mem_map] at h
  obtain ⟨p, hp, hfst⟩ := h
  rw [List.mem_filter] at hp
  have hg := List.mem_enum_iff_get?.mp hp.1
  have hae : p.2.available = true ∧ p.2.enable = true := by
    simpa [Bool.and_eq_true] using hp.2
  refine ⟨p.2, ?_, hae.1, hae.2⟩
  rw [← hfst]; exact hg

theorem availableBots_lt (bots : List Bot) (i : Nat)
    (h : i ∈ availableBots bots) : i < bots.length := by
  obtain ⟨b, hb, -, -⟩ := mem_availableBots bots i h
  rw [List.get?_eq_getElem?] at hb
  exact (List.getElem?_eq_some_iff.mp hb).1

theorem availableBots_nodup (bots : List Bot) : (availableBots bots).Nodup := by
  unfold availableBots
  have hsub : List.Sublist
      ((bots.enum.filter (fun p => p.2.available && p.2.enable)).map (fun p => p.1))
      (bots.enum.map Prod.fst) :=
    (List.filter_sublist _).map _
  exact hsub.nodup (List.nodup_enum_map_fst _)

theorem getD_mem_of_lt (l : List Nat) (j : Nat) (h : j < l.length) :
    l.getD j 0 ∈ l := by
  rw [List.getD_eq_getElem?_getD, List.getElem?_eq_getElem h]
  exact List.getElem_mem h

theorem scheduleNextMessage_char (st : AppState) (o : Oracle) (now : Nat)
    (st2 : AppState) (h : scheduleNextMessage st o now = Option.some st2) :
    ∃ w, st2 = { st with next_message_time := Option.some (now + w) } := by
  unfold scheduleNextMessage at h
  cases hr : randRange st.min_interval st.max_interval o.intervalEntropy with
  | none => rw [hr] at h; cases h
  | some w => rw [hr] at h; exact ⟨w, (Option.some.inj h).symm⟩

theorem rescheduleIf_char (st : AppState) (o : Oracle) (now : Nat)
    (st2 : AppState) (h : rescheduleIf st o now = Option.some st2) :
    ∃ nx, st2 = { st with next_message_time := nx } := by
  unfold rescheduleIf at h
  by_cases he : st.random_messages_enabled = true
  · rw [if_pos he] at h
    obtain ⟨w, hw⟩ := scheduleNextMessage_char st o now st2 h
    exact ⟨_, hw⟩
  · rw [if_neg he] at h
    have h2 := Option.some.inj h
    exact ⟨st.next_message_time, by rw [← h2]⟩

/-- Full characterisation of the shared all-bots dispatch loop: when every
targeted index is in range and the delay draw cannot panic, the loop
succeeds; it launches one send per pair, appends one entry to the global
log per pair, leaves untargeted bots alone, appends exactly one entry to
each targeted bot's history (when targets are distinct), and the `n`-th
send goes to the `n`-th pair with the staggered delay `u * delay_index`. -/
theorem dispatchLoop_char (ch msgTxt : String) (simult : Bool) (lo hi : Nat)
    (de : Nat → Nat) (tag : Bool) (hok : simult = true ∨ lo ≤ hi) :
    ∀ (ps : List (Nat × Nat)) (bots : List Bot) (chat : List String),
      (∀ p ∈ ps, p.2 < bots.length) →
      ∃ bc : List Bot × List String × List Eff,
        dispatchLoop ch msgTxt simult lo hi de tag ps bots chat =
          Option.some bc ∧
        bc.2.2.length = ps.length ∧
        bc.2.1.length = chat.length + ps.length ∧
        chat <+: bc.2.1 ∧
        bc.1.length = bots.length ∧
        (∀ n p, ps.get? n = Option.some p →
          ∃ t, bc.2.2.get? n = Option.some (Eff.send t) ∧
            t.botIndex = p.2 ∧ t.channel = ch ∧ t.message = msgTxt ∧
            (simult = true → t.delaySec = 0) ∧
            (simult = false →
              ∃ u, lo ≤ u ∧ u ≤ hi ∧ t.delaySec = u * p.1)) ∧
        (∀ t, Eff.send t ∈ bc.2.2 → ∃ k, (k, t.botIndex) ∈ ps) ∧
        (∀ i, i ∉ ps.map Prod.snd → bc.1.get? i = bots.get? i) ∧
        ((ps.map Prod.snd).Nodup → ∀ p ∈ ps,
          ∃ b, bots.get? p.2 = Option.some b ∧
            bc.1.get? p.2 = Option.some (pushHistory
              (if tag then histRand b.name msgTxt else histUser b.name msgTxt) b)) := by
  intro ps
  induction ps with
  | nil =>
    intro bots chat _
    refine ⟨(bots, chat, []), rfl, rfl, by simp, List.prefix_refl _, rfl,
      ?_, ?_, ?_, ?_⟩
    · intro n p hp; simp at hp
    · intro t ht; simp at ht
    · intro i _; rfl
    · intro _ p hp; simp at hp
  | cons q rest ih =>
    intro bots chat hlt
    obtain ⟨k, bi⟩ := q
    have hbi : bi < bots.length := hlt (k, bi) (by simp)
    obtain ⟨bot, hget⟩ : ∃ b, bots.get? bi = Option.some b := by
      cases hg : bots.get? bi with
      | none =>
        rw [List.get?_eq_getElem?] at hg
        rw [List.getElem?_eq_none_iff] at hg
        omega
      | some b => exact ⟨b, rfl⟩
    set entry := if tag then histRand bot.name msgTxt else histUser bot.name msgTxt
      with hentry
    set bots' := modifyBot bots bi (pushHistory entry) with hbots'
    have hblen : bots'.length = bots.length := modifyBot_length bots bi _
    have hrest : ∀ p ∈ rest, p.2 < bots'.length := by
      intro p hp
      rw [hblen]
      exact hlt p (by simp [hp])
    obtain ⟨d, hd, hd0, hdu⟩ : ∃ d,
        (if simult then Option.some 0
          else (randRange lo hi (de k)).map (fun u => u * k)) = Option.some d ∧
        (simult = true → d = 0) ∧
        (simult = false → ∃ u, lo ≤ u ∧ u ≤ hi ∧ d = u * k) := by
      by_cases hsim : simult = true
      · exact ⟨0, by simp [hsim], fun _ => rfl, fun hf => absurd hsim (by simp [hf])⟩
      · have hsf : simult = false := by simpa using hsim
        rcases hok with h | h
        · exact absurd h hsim
        · obtain ⟨u, hu, h1, h2⟩ := randRange_le lo hi (de k) h
          exact ⟨u * k, by simp [hsf, hu], fun ht => absurd ht hsim,
            fun _ => ⟨u, h1, h2, rfl⟩⟩
    obtain ⟨bc', heq', hlen', hclen', hpre', hblen', hgetn', hmem', hunt', hnod'⟩ :=
      ih bots' (chat ++ [entry]) hrest
    obtain ⟨b2, c2, effs⟩ := bc'
    refine ⟨(b2, c2, Eff.send ⟨bi, bot.name, bot.token, ch, msgTxt, d⟩ :: effs),
      ?_, ?_, ?_, ?_, ?_, ?_, ?_, ?_, ?_⟩
    · show dispatchLoop ch msgTxt simult lo hi de tag ((k, bi) :: rest) bots chat = _
      rw [dispatchLoop, hget]
      simp only [hd, ← hentry, ← hbots', heq']
    · simpa using hlen'
    · simp only [List.length_append, List.length_singleton] at hclen'
      simp only [List.length_cons]
      omega
    · exact List.IsPrefix.trans (List.prefix_append chat [entry]) hpre'
    · show b2.length = bots.length
      have hb2 : b2.length = bots'.length := hblen'
      rw [hb2, hblen]
    · intro n p hp
      cases n with
      | zero =>
        have hpq : p = (k, bi) := by
          have := hp
          simp only [List.get?] at this
          exact (Option.some.inj this).symm
        subst hpq
        exact ⟨_, rfl, rfl, rfl, rfl, hd0, hdu⟩
      | succ m =>
        have hp' : rest.get? m = Option.some p := by simpa using hp
        exact hgetn' m p hp'
    · intro t ht
      rcases List.mem_cons.mp ht with heq | hmem
      · have : t = ⟨bi, bot.name, bot.token, ch, msgTxt, d⟩ := Eff.send.inj heq
        subst this
        exact ⟨k, by simp⟩
      · obtain ⟨k', hk'⟩ := hmem' t hmem
        exact ⟨k', by simp [hk']⟩
    · intro i hi
      simp only [List.map_cons, List.mem_cons, not_or] at hi
      rw [hunt' i hi.2, hbots', modifyBot_get?_ne bots bi i _ hi.1]
    · intro hnd p hp
      simp only [List.map_cons, List.nodup_cons] at hnd
      rcases List.mem_cons.mp hp with hpq | hpr
      · subst hpq
        refine ⟨bot, hget, ?_⟩
        rw [hunt' bi hnd.1, hbots',
          modifyBot_get?_self bots bi (pushHistory entry) bot hget]
      · obtain ⟨b, hb, hb2⟩ := hnod' hnd.2 p hpr
        have hne : p.2 ≠ bi := by
          intro hcontra
          apply hnd.1
          rw [← hcontra]
          exact List.mem_map_of_mem Prod.snd hpr
        rw [hbots', modifyBot_get?_ne bots bi p.2 _ hne] at hb
        exact ⟨b, hb, hb2⟩

/-- Bot indices of the send tasks among a list of effects, in order. -/
def sendTargets (effs : List Eff) : List Nat :=
  effs.filterMap (fun e => match e with
    | Eff.send t => Option.some t.botIndex
    | _ => Option.none)

/-- Message texts of the send tasks among a list of effects, in order. -/
def sendMessages (effs : List Eff) : List String :=
  effs.filterMap (fun e => match e with
    | Eff.send t => Option.some t.message
    | _ => Option.none)

/-- Stagger delays of the send tasks among a list of effects, in order. -/
def sendDelays (effs : List Eff) : List Nat :=
  effs.filterMap (fun e => match e with
    | Eff.send t => Option.some t.delaySec
    | _ => Option.none)

/-- The message chosen for target `i` by the `multiple_bots_mode` loop:
a fresh shuffle of the pool (index `i mod len`) when the pool has more
than `i` entries, otherwise an independent uniform draw. -/
def multiMsgSel (o : Oracle) (msgs : List String) (i : Nat) : String :=
  if msgs.length > i then
    (o.shuffleMsgsAt i msgs).getD (i % (o.shuffleMsgsAt i msgs).length) ""
  else msgs.getD ((o.msgPickAt i) % msgs.length) ""

/-- Characterisation of the `multiple_bots_mode` loop: with in-range
targets, a non-empty pool and a non-panicking delay draw, the loop
succeeds, sends to `shuffled[i]` for each `i`, and picks messages by
`multiMsgSel`. -/
theorem multiLoop_char (ch : String) (msgs : List String) (simult : Bool)
    (lo hi : Nat) (o : Oracle) (shuffled : List Nat)
    (hok : simult = true ∨ lo ≤ hi) (hmsgs : msgs ≠ [])
    (hshlen : ∀ i, (o.shuffleMsgsAt i msgs).length = msgs.length) :
    ∀ (idxs : List Nat) (bots : List Bot) (chat : List String),
      (∀ i ∈ idxs, shuffled.getD i 0 < bots.length) →
      ∃ bc, multiLoop ch msgs simult lo hi o shuffled idxs bots chat =
          Option.some bc ∧
        bc.2.2.length = idxs.length ∧
        sendTargets bc.2.2 = idxs.map (fun i => shuffled.getD i 0) ∧
        sendMessages bc.2.2 = idxs.map (fun i => multiMsgSel o msgs i) ∧
        (∀ t, Eff.send t ∈ bc.2.2 → ∃ i ∈ idxs, t.botIndex = shuffled.getD i 0) := by
  intro idxs
  induction idxs with
  | nil =>
    intro bots chat _
    refine ⟨(bots, chat, []), rfl, rfl, rfl, rfl, ?_⟩
    intro t ht; simp at ht
  | cons i rest ih =>
    intro bots chat hlt
    have hbi : shuffled.getD i 0 < bots.length := hlt i (by simp)
    obtain ⟨bot, hget⟩ : ∃ b, bots.get? (shuffled.getD i 0) = Option.some b := by
      cases hg : bots.get? (shuffled.getD i 0) with
      | none =>
        rw [List.get?_eq_getElem?] at hg
        rw [List.getElem?_eq_none_iff] at hg
        omega
      | some b => exact ⟨b, rfl⟩
    have hmpos : 0 < msgs.length := List.length_pos.mpr hmsgs
    have hmsel : (if msgs.length > i then
        (let sm := o.shuffleMsgsAt i msgs
         if sm.isEmpty then Option.none
         else Option.some (sm.getD (i % sm.length) ""))
        else (randBelow msgs.length (o.msgPickAt i)).map
          (fun j => msgs.getD j "")) = Option.some (multiMsgSel o msgs i) := by
      by_cases hgt : msgs.length > i
      · have hne : (o.shuffleMsgsAt i msgs).isEmpty = false := by
          cases hsm : o.shuffleMsgsAt i msgs with
          | nil =>
            have hl := hshlen i
            rw [hsm] at hl
            simp at hl
            omega
          | cons a l => rfl
        simp only [hgt, if_true, hne, Bool.false_eq_true, if_false,
          multiMsgSel]
      · simp only [hgt, if_false, multiMsgSel, randBelow, hmpos, if_pos]
        rfl
    obtain ⟨d, hd, -, -⟩ : ∃ d,
        (if simult then Option.some 0
          else (randRange lo hi (o.delayEntropy i)).map (fun u => u * i)) =
          Option.some d ∧
        (simult = true → d = 0) ∧
        (simult = false → ∃ u, lo ≤ u ∧ u ≤ hi ∧ d = u * i) := by
      by_cases hsim : simult = true
      · exact ⟨0, by simp [hsim], fun _ => rfl, fun hf => absurd hsim (by simp [hf])⟩
      · have hsf : simult = false := by simpa using hsim
        rcases hok with h | h
        · exact absurd h hsim
        · obtain ⟨u, hu, h1, h2⟩ := randRange_le lo hi (o.delayEntropy i) h
          exact ⟨u * i, by simp [hsf, hu], fun ht => absurd ht hsim,
            fun _ => ⟨u, h1, h2, rfl⟩⟩
    set entry := histRand bot.name (multiMsgSel o msgs i) with hentry
    set bots' := modifyBot bots (shuffled.getD i 0) (pushHistory entry) with hbots'
    have hrest : ∀ j ∈ rest, shuffled.getD j 0 < bots'.length := by
      intro j hj
      rw [hbots', modifyBot_length]
      exact hlt j (by simp [hj])
    obtain ⟨bc', heq', hlen', htgt', hmsg', hmem'⟩ := ih bots' (chat ++ [entry]) hrest
    obtain ⟨b2, c2, effs⟩ := bc'
    refine ⟨(b2, c2, Eff.send ⟨shuffled.getD i 0, bot.name, bot.token, ch,
      multiMsgSel o msgs i, d⟩ :: effs), ?_, ?_, ?_, ?_, ?_⟩
    · show multiLoop ch msgs simult lo hi o shuffled (i :: rest) bots chat = _
      rw [multiLoop, hget]
      simp only [hmsel, hd, ← hentry, ← hbots', heq']
    · simpa using hlen'
    · show sendTargets (Eff.send _ :: effs) = _
      simp only [sendTargets, List.filterMap_cons, List.map_cons]
      rw [← sendTargets]
      rw [htgt']
    · show sendMessages (Eff.send _ :: effs) = _
      simp only [sendMessages, List.filterMap_cons, List.map_cons]
      rw [← sendMessages]
      rw [hmsg']
    · intro t ht
      rcases List.mem_cons.mp ht with heq | hmem
      · have : t = ⟨shuffled.getD i 0, bot.name, bot.token, ch,
            multiMsgSel o msgs i, d⟩ := Eff.send.inj heq
        subst this
        exact ⟨i, by simp, rfl⟩
      · obtain ⟨i', hi', ht'⟩ := hmem' t hmem
        exact ⟨i', by simp [hi'], ht'⟩

/-- Any successful run of the all-bots loop only sends to indices in `ps`. -/
theorem dispatchLoop_sends_subset (ch msgTxt : String) (simult : Bool)
    (lo hi : Nat) (de : Nat → Nat) (tag : Bool) :
    ∀ (ps : List (Nat × Nat)) (bots : List Bot) (chat : List String) bc,
      dispatchLoop ch msgTxt simult lo hi de tag ps bots chat = Option.some bc →
      ∀ t, Eff.send t ∈ bc.2.2 → ∃ k, (k, t.botIndex) ∈ ps := by
  intro ps
  induction ps with
  | nil =>
    intro bots chat bc h t ht
    have hbc : bc = (bots, chat, []) := (Option.some.inj h).symm
    subst hbc
    simp at ht
  | cons q rest ih =>
    intro bots chat bc h t ht
    obtain ⟨k, bi⟩ := q
    rw [dispatchLoop] at h
    cases hget : bots.get? bi with
    | none =>
      rw [hget] at h
      obtain ⟨k', hk'⟩ := ih _ _ _ h t ht
      exact ⟨k', by simp [hk']⟩
    | some bot =>
      rw [hget] at h
      simp only at h
      cases hd : (if simult then Option.some 0
          else (randRange lo hi (de k)).map (fun u => u * k)) with
      | none => rw [hd] at h; exact Option.noConfusion h
      | some d =>
        rw [hd] at h
        cases hrec : dispatchLoop ch msgTxt simult lo hi de tag rest
            (modifyBot bots bi (pushHistory
              (if tag then histRand bot.name msgTxt else histUser bot.name msgTxt)))
            (chat ++ [if tag then histRand bot.name msgTxt
              else histUser bot.name msgTxt]) with
        | none => rw [hrec] at h; exact Option.noConfusion h
        | some bc' =>
          obtain ⟨b2, c2, effs⟩ := bc'
          rw [hrec] at h
          have hbc : bc = (b2, c2,
              Eff.send ⟨bi, bot.name, bot.token, ch, msgTxt, d⟩ :: effs) :=
            (Option.some.inj h).symm
          subst hbc
          rcases List.mem_cons.mp ht with he | hm
          · have : t = ⟨bi, bot.name, bot.token, ch, msgTxt, d⟩ := Eff.send.inj he
            subst this
            exact ⟨k, by simp⟩
          · obtain ⟨k', hk'⟩ := ih _ _ _ hrec t hm
            exact ⟨k', by simp [hk']⟩

/-- Any successful run of the multiple-bots loop only sends to indices
`shuffled[i]` with `i ∈ idxs`. -/
theorem multiLoop_sends_subset (ch : String) (msgs : List String)
    (simult : Bool) (lo hi : Nat) (o : Oracle) (shuffled : List Nat) :
    ∀ (idxs : List Nat) (bots : List Bot) (chat : List String) bc,
      multiLoop ch msgs simult lo hi o shuffled idxs bots chat =
        Option.some bc →
      ∀ t, Eff.send t ∈ bc.2.2 → ∃ i ∈ idxs, t.botIndex = shuffled.getD i 0 := by
  intro idxs
  induction idxs with
  | nil =>
    intro bots chat bc h t ht
    have hbc : bc = (bots, chat, []) := (Option.some.inj h).symm
    subst hbc
    simp at ht
  | cons i rest ih =>
    intro bots chat bc h t ht
    rw [multiLoop] at h
    cases hget : bots.get? (shuffled.getD i 0) with
    | none =>
      rw [hget] at h
      obtain ⟨i', hi', ht'⟩ := ih _ _ _ h t ht
      exact ⟨i', by simp [hi'], ht'⟩
    | some bot =>
      rw [hget] at h
      simp only at h
      cases hm : (if msgs.length > i then
          (if (o.shuffleMsgsAt i msgs).isEmpty then Option.none
           else Option.some ((o.shuffleMsgsAt i msgs).getD
             (i % (o.shuffleMsgsAt i msgs).length) ""))
          else (randBelow msgs.length (o.msgPickAt i)).map
            (fun j => msgs.getD j "")) with
      | none => rw [hm] at h; exact Option.noConfusion h
      | some msgTxt =>
        rw [hm] at h
        cases hd : (if simult then Option.some 0
            else (randRange lo hi (o.delayEntropy i)).map (fun u => u * i)) with
        | none => rw [hd] at h; exact Option.noConfusion h
        | some d =>
          rw [hd] at h
          simp only at h
          split at h
          · exact Option.noConfusion h
          · rename_i b2 c2 effs hrec
            have hbc : bc = (b2, c2, Eff.send ⟨shuffled.getD i 0, bot.name,
                bot.token, ch, msgTxt, d⟩ :: effs) := (Option.some.inj h).symm
            subst hbc
            rcases List.mem_cons.mp ht with he | hm2
            · have : t = ⟨shuffled.getD i 0, bot.name, bot.token, ch,
                  msgTxt, d⟩ := Eff.send.inj he
              subst this
              exact ⟨i, by simp, rfl⟩
            · obtain ⟨i', hi', ht'⟩ := ih _ _ _ hrec t hm2
              exact ⟨i', by simp [hi'], ht'⟩

/-! ## Claim C1 : eligibility invariant -/

/-- C1: for every `update` message (in particular the single-bot,
random-bot, all-bots, subset and scheduled-random dispatches) and every
launched send task, the targeted bot exists and had `available = true` and
`enable = true` in the pre-state (= at target-selection time); and a
single-bot dispatch naming an ineligible or out-of-range index is a no-op
returning the state unchanged with no tasks. -/
theorem dispatch_eligibility (st : AppState) (cnt : Nat) (o : Oracle)
    (now : Nat) (hval : o.Valid) :
    (∀ m st' cnt' effs, update st cnt o now m = Option.some (st', cnt', effs) →
      ∀ t, Eff.send t ∈ effs →
        ∃ b, st.bots.get? t.botIndex = Option.some b ∧
          b.available = true ∧ b.enable = true)
    ∧ (∀ i, (∀ b, st.bots.get? i = Option.some b →
          b.available = false ∨ b.enable = false) →
        update st cnt o now (Msg.SendMessage i) = Option.some (st, cnt, [])) := by
  constructor
  · intro m st' cnt' effs hup t ht
    cases m
    case SendMessage index =>
      simp only [update] at hup
      cases hget : st.bots.get? index with
      | none =>
        rw [hget] at hup
        have heffs := congrArg (fun p => p.2.2) (Option.some.inj hup)
        simp only at heffs
        rw [← heffs] at ht
        simp at ht
      | some bot =>
        rw [hget] at hup
        simp only at hup
        by_cases hflag : (!bot.available || !bot.enable) = true
        · rw [if_pos hflag] at hup
          have heffs := congrArg (fun p => p.2.2) (Option.some.inj hup)
          simp only at heffs
          rw [← heffs] at ht
          simp at ht
        · rw [if_neg hflag] at hup
          have heffs := congrArg (fun p => p.2.2) (Option.some.inj hup)
          simp only at heffs
          rw [← heffs] at ht
          simp only [List.mem_singleton] at ht
          have hteq : t = ⟨index, bot.name, bot.token, st.channel,
              st.message, 0⟩ := Eff.send.inj ht
          subst hteq
          have hfl : bot.available = true ∧ bot.enable = true := by
            revert hflag
            cases bot.available <;> cases bot.enable <;> simp
          exact ⟨bot, hget, hfl.1, hfl.2⟩
    case SendBotMessage index =>
      simp only [update] at hup
      by_cases hg : (st.bot_message_input.isEmpty || st.channel.isEmpty) = true
      · rw [if_pos hg] at hup
        have heffs := congrArg (fun p => p.2.2) (Option.some.inj hup)
        simp only at heffs
        rw [← heffs] at ht
        simp at ht
      · rw [if_neg hg] at hup
        cases hget : st.bots.get? index with
        | none =>
          rw [hget] at hup
          have heffs := congrArg (fun p => p.2.2) (Option.some.inj hup)
          simp only at heffs
          rw [← heffs] at ht
          simp at ht
        | some bot =>
          rw [hget] at hup
          simp only at hup
          by_cases hflag : (!bot.available || !bot.enable) = true
          · rw [if_pos hflag] at hup
            have heffs := congrArg (fun p => p.2.2) (Option.some.inj hup)
            simp only at heffs
            rw [← heffs] at ht
            simp at ht
          · rw [if_neg hflag] at hup
            have heffs := congrArg (fun p => p.2.2) (Option.some.inj hup)
            simp only at heffs
            rw [← heffs] at ht
            simp only [List.mem_singleton] at ht
            have hteq : t = ⟨index, bot.name, bot.token, st.channel,
                st.bot_message_input, 0⟩ := Eff.send.inj ht
            subst hteq
            have hfl : bot.available = true ∧ bot.enable = true := by
              revert hflag
              cases bot.available <;> cases bot.enable <;> simp
            exact ⟨bot, hget, hfl.1, hfl.2⟩
    case SendMessageRandomBot =>
      simp only [update] at hup
      by_cases hg : (st.message.isEmpty || st.channel.isEmpty) = true
      · rw [if_pos hg] at hup
        have heffs := congrArg (fun p => p.2.2) (Option.some.inj hup)
        simp only at heffs
        rw [← heffs] at ht
        simp at ht
      · rw [if_neg hg] at hup
        by_cases ha : (availableBots st.bots).isEmpty = true
        · rw [if_pos ha] at hup
          have heffs := congrArg (fun p => p.2.2) (Option.some.inj hup)
          simp only at heffs
          rw [← heffs] at ht
          simp at ht
        · rw [if_neg ha] at hup
          have hlen : 0 < (availableBots st.bots).length := by
            cases hA : availableBots st.bots with
            | nil => rw [hA] at ha; simp at ha
            | cons x xs => simp [hA]
          rw [show randBelow (availableBots st.bots).length o.botPick =
              Option.some (o.botPick % (availableBots st.bots).length) from by
            simp [randBelow, hlen]] at hup
          simp only at hup
          have hjlt : o.botPick % (availableBots st.bots).length <
              (availableBots st.bots).length := Nat.mod_lt _ hlen
          have hmem := getD_mem_of_lt (availableBots st.bots) _ hjlt
          obtain ⟨b, hgetb, hav, hen⟩ := mem_availableBots st.bots _ hmem
          rw [hgetb] at hup
          simp only at hup
          have heffs := congrArg (fun p => p.2.2) (Option.some.inj hup)
          simp only at heffs
          rw [← heffs] at ht
          simp only [List.mem_singleton] at ht
          have hteq : t = ⟨(availableBots st.bots).getD
              (o.botPick % (availableBots st.bots).length) 0,
              b.name, b.token, st.channel, st.message, 0⟩ := Eff.send.inj ht
          subst hteq
          exact ⟨b, hgetb, hav, hen⟩
    case SendMessageAllBots =>
      simp only [update] at hup
      by_cases hg : (st.message.isEmpty || st.channel.isEmpty) = true
      · rw [if_pos hg] at hup
        have heffs := congrArg (fun p => p.2.2) (Option.some.inj hup)
        simp only at heffs
        rw [← heffs] at ht
        simp at ht
      · rw [if_neg hg] at hup
        by_cases ha : (availableBots st.bots).isEmpty = true
        · rw [if_pos ha] at hup
          have heffs := congrArg (fun p => p.2.2) (Option.some.inj hup)
          simp only at heffs
          rw [← heffs] at ht
          simp at ht
        · rw [if_neg ha] at hup
          split at hup
          · exact Option.noConfusion hup
          · rename_i bots' chat' effs2 hloop
            have heffs := congrArg (fun p => p.2.2) (Option.some.inj hup)
            simp only at heffs
            rw [← heffs] at ht
            obtain ⟨k, hk⟩ :=
              dispatchLoop_sends_subset _ _ _ _ _ _ _ _ _ _ _ hloop t ht
            have hmem : t.botIndex ∈ availableBots st.bots :=
              List.get?_mem (List.mem_enum_iff_get?.mp hk)
            exact mem_availableBots st.bots _ hmem
    case SendRandomMessage =>
      simp only [update] at hup
      by_cases hg : (st.messages.isEmpty || st.channel.isEmpty) = true
      · rw [if_pos hg] at hup
        have heffs := congrArg (fun p => p.2.2) (Option.some.inj hup)
        simp only at heffs
        rw [← heffs] at ht
        simp at ht
      · rw [if_neg hg] at hup
        by_cases ha : (availableBots st.bots).isEmpty = true
        · rw [if_pos ha] at hup
          have heffs := congrArg (fun p => p.2.2) (Option.some.inj hup)
          simp only at heffs
          rw [← heffs] at ht
          simp at ht
        · rw [if_neg ha] at hup
          have hmlen : 0 < st.messages.length := by
            cases hM : st.messages with
            | nil => rw [hM] at hg; simp at hg
            | cons x xs => simp [hM]
          have hlen : 0 < (availableBots st.bots).length := by
            cases hA : availableBots st.bots with
            | nil => rw [hA] at ha; simp at ha
            | cons x xs => simp [hA]
          by_cases hmb : st.multiple_bots_mode = true
          · rw [if_pos hmb] at hup
            split at hup
            · exact Option.noConfusion hup
            · rename_i bots' chat' effs2 hloop
              split at hup
              · exact Option.noConfusion hup
              · rename_i st2 hres
                have heffs := congrArg (fun p => p.2.2) (Option.some.inj hup)
                simp only at heffs
                rw [← heffs] at ht
                obtain ⟨i, hi, hbi⟩ :=
                  multiLoop_sends_subset _ _ _ _ _ _ _ _ _ _ _ hloop t ht
                have hperm := hval.1 (availableBots st.bots)
                have hshl : (o.shuffleBots (availableBots st.bots)).length =
                    (availableBots st.bots).length := hperm.length_eq
                have hilt : i < (o.shuffleBots (availableBots st.bots)).length := by
                  rw [hshl]
                  have h2 := List.mem_range.mp hi
                  omega
                have hmem2 := getD_mem_of_lt
                  (o.shuffleBots (availableBots st.bots)) i hilt
                have hmem3 : t.botIndex ∈ availableBots st.bots := by
                  rw [hbi]
                  exact hperm.mem_iff.mp hmem2
                exact mem_availableBots st.bots _ hmem3
          · rw [if_neg hmb] at hup
            by_cases hab : st.all_bots_mode = true
            · rw [if_pos hab] at hup
              rw [show randBelow st.messages.length o.msgPick =
                  Option.some (o.msgPick % st.messages.length) from by
                simp [randBelow, hmlen]] at hup
              simp only at hup
              split at hup
              · exact Option.noConfusion hup
              · rename_i bots' chat' effs2 hloop
                split at hup
                · exact Option.noConfusion hup
                · rename_i st2 hres
                  have heffs := congrArg (fun p => p.2.2) (Option.some.inj hup)
                  simp only at heffs
                  rw [← heffs] at ht
                  obtain ⟨k, hk⟩ :=
                    dispatchLoop_sends_subset _ _ _ _ _ _ _ _ _ _ _ hloop t ht
                  have hmem : t.botIndex ∈ availableBots st.bots :=
                    List.get?_mem (List.mem_enum_iff_get?.mp hk)
                  exact mem_availableBots st.bots _ hmem
            · rw [if_neg hab] at hup
              rw [show randBelow st.messages.length o.msgPick =
                  Option.some (o.msgPick % st.messages.length) from by
                simp [randBelow, hmlen]] at hup
              simp only at hup
              rw [show randBelow (availableBots st.bots).length o.botPick =
                  Option.some (o.botPick % (availableBots st.bots).length) from by
                simp [randBelow, hlen]] at hup
              simp only at hup
              have hjlt : o.botPick % (availableBots st.bots).length <
                  (availableBots st.bots).length := Nat.mod_lt _ hlen
              have hmem := getD_mem_of_lt (availableBots st.bots) _ hjlt
              obtain ⟨b, hgetb, hav, hen⟩ := mem_availableBots st.bots _ hmem
              rw [hgetb] at hup
              simp only at hup
              split at hup
              · exact Option.noConfusion hup
              · rename_i st2 hres
                have heffs := congrArg (fun p => p.2.2) (Option.some.inj hup)
                simp only at heffs
                rw [← heffs] at ht
                simp only [List.mem_singleton] at ht
                have hteq : t = ⟨(availableBots st.bots).getD
                    (o.botPick % (availableBots st.bots).length) 0, b.name,
                    b.token, st.channel,
                    st.messages.getD (o.msgPick % st.messages.length) "", 0⟩ :=
                  Eff.send.inj ht
                subst hteq
                exact ⟨b, hgetb, hav, hen⟩
    case MessageClicked index =>
      simp only [update] at hup
      cases hch : st.chat_history.get? index with
      | none =>
        rw [hch] at hup
        have heffs := congrArg (fun p => p.2.2) (Option.some.inj hup)
        simp only at heffs
        rw [← heffs] at ht
        simp at ht
      | some msgTxt =>
        rw [hch] at hup
        simp only at hup
        cases hex : extractBotName msgTxt with
        | none =>
          rw [hex] at hup
          have heffs := congrArg (fun p => p.2.2) (Option.some.inj hup)
          simp only at heffs
          rw [← heffs] at ht
          simp at ht
        | some nm =>
          rw [hex] at hup
          simp only at hup
          cases hfi : st.bots.findIdx? (fun b => b.name == nm) with
          | none =>
            rw [hfi] at hup
            have heffs := congrArg (fun p => p.2.2) (Option.some.inj hup)
            simp only at heffs
            rw [← heffs] at ht
            simp at ht
          | some bidx =>
            rw [hfi] at hup
            have heffs := congrArg (fun p => p.2.2) (Option.some.inj hup)
            simp only at heffs
            rw [← heffs] at ht
            simp at ht
    all_goals
      simp only [update] at hup
    all_goals
      repeat split at hup
    all_goals
      first
      | exact Option.noConfusion hup
      | (have heffs := congrArg (fun p => p.2.2) (Option.some.inj hup)
         simp only at heffs
         rw [← heffs] at ht
         simp at ht)
  · intro i hflags
    simp only [update]
    cases hget : st.bots.get? i with
    | none => rfl
    | some bot =>
      have hfl := hflags bot hget
      have hcond : (!bot.available || !bot.enable) = true := by
        rcases hfl with h | h <;> simp [h]
      simp only [hcond, if_true]

/-- A concrete one-eligible-bot state for witnesses. -/
def stOneBot : AppState :=
  { AppState.init with
    message := "hi"
    channel := "chan"
    bots := [botFix "a"] }

/-- C1 witness: the oracle-validity hypothesis holds for the identity
oracle, and applying the theorem to a concrete `SendMessage 0` dispatch on
a one-bot state yields that bot with both flags true. -/
theorem dispatch_eligibility_witness :
    oZero.Valid ∧
    ∃ b, stOneBot.bots.get? 0 = Option.some b ∧
      b.available = true ∧ b.enable = true := by
  refine ⟨oZero_valid, ?_⟩
  exact (dispatch_eligibility stOneBot 1 oZero 0 oZero_valid).1
    (Msg.SendMessage 0)
    { stOneBot with
      chat_history := ["[a] hi"]
      bots := [{ botFix "a" with chat_history := ["[a] hi"] }] }
    1 [Eff.send ⟨0, "a", "tok", "chan", "hi", 0⟩] (by decide)
    ⟨0, "a", "tok", "chan", "hi", 0⟩ (by decide)

/-! ## Claim C10 : the two multi-bot modes are mutually exclusive -/

/-- C10: in the initial state both `all_bots_mode` and
`multiple_bots_mode` are false, and every `update` step preserves the
invariant that they are never both true (enabling one clears the other). -/
theorem mode_flags_mutually_exclusive :
    (AppState.init.all_bots_mode = false ∧
      AppState.init.multiple_bots_mode = false)
    ∧ (∀ st cnt o now m st' cnt' effs,
        update st cnt o now m = Option.some (st', cnt', effs) →
        ¬(st.all_bots_mode = true ∧ st.multiple_bots_mode = true) →
        ¬(st'.all_bots_mode = true ∧ st'.multiple_bots_mode = true)) := by
  refine ⟨⟨rfl, rfl⟩, ?_⟩
  intro st cnt o now m st' cnt' effs hup hpre
  cases m
  case ToggleAllBotsMode enabled =>
    simp only [update] at hup
    split at hup
    · have hst := congrArg (fun p => p.1) (Option.some.inj hup)
      simp only at hst
      subst hst
      intro hpost
      simp at hpost
    · rename_i hc
      have hst := congrArg (fun p => p.1) (Option.some.inj hup)
      simp only at hst
      subst hst
      intro hpost
      simp at hpost
      exact hc (by simp [hpost.1, hpost.2])
  case ToggleMultipleBotsMode enabled =>
    simp only [update] at hup
    split at hup
    · have hst := congrArg (fun p => p.1) (Option.some.inj hup)
      simp only at hst
      subst hst
      intro hpost
      simp at hpost
    · rename_i hc
      have hst := congrArg (fun p => p.1) (Option.some.inj hup)
      simp only at hst
      subst hst
      intro hpost
      simp at hpost
      exact hc (by simp [hpost.1, hpost.2])
  case ToggleRandomMessages enabled =>
    simp only [update] at hup
    split at hup
    · split at hup
      · rename_i st2 hsch
        obtain ⟨w, hw⟩ := scheduleNextMessage_char _ o now st2 hsch
        have hst := congrArg (fun p => p.1) (Option.some.inj hup)
        simp only at hst
        subst hst
        subst hw
        intro hpost
        simp at hpost
        exact hpre hpost
      · exact Option.noConfusion hup
    · have hst := congrArg (fun p => p.1) (Option.some.inj hup)
      simp only at hst
      subst hst
      intro hpost
      simp at hpost
      exact hpre hpost
  case SendRandomMessage =>
    simp only [update] at hup
    by_cases hg : (st.messages.isEmpty || st.channel.isEmpty) = true
    · rw [if_pos hg] at hup
      have hst := congrArg (fun p => p.1) (Option.some.inj hup)
      simp only at hst
      subst hst
      exact hpre
    · rw [if_neg hg] at hup
      by_cases ha : (availableBots st.bots).isEmpty = true
      · rw [if_pos ha] at hup
        have hst := congrArg (fun p => p.1) (Option.some.inj hup)
        simp only at hst
        subst hst
        exact hpre
      · rw [if_neg ha] at hup
        by_cases hmb : st.multiple_bots_mode = true
        · rw [if_pos hmb] at hup
          split at hup
          · exact Option.noConfusion hup
          · rename_i bots' chat' effs2 hloop
            split at hup
            · exact Option.noConfusion hup
            · rename_i st2 hres
              obtain ⟨nx, hnx⟩ := rescheduleIf_char _ o now st2 hres
              have hst := congrArg (fun p => p.1) (Option.some.inj hup)
              simp only at hst
              subst hst
              subst hnx
              intro hpost
              simp at hpost
              exact hpre hpost
        · rw [if_neg hmb] at hup
          by_cases hab : st.all_bots_mode = true
          · rw [if_pos hab] at hup
            split at hup
            · exact Option.noConfusion hup
            · rename_i mi hmi
              split at hup
              · exact Option.noConfusion hup
              · rename_i bots' chat' effs2 hloop
                split at hup
                · exact Option.noConfusion hup
                · rename_i st2 hres
                  obtain ⟨nx, hnx⟩ := rescheduleIf_char _ o now st2 hres
                  have hst := congrArg (fun p => p.1) (Option.some.inj hup)
                  simp only at hst
                  subst hst
                  subst hnx
                  intro hpost
                  simp at hpost
                  exact hpre hpost
          · rw [if_neg hab] at hup
            split at hup
            · exact Option.noConfusion hup
            · rename_i mi hmi
              split at hup
              · exact Option.noConfusion hup
              · rename_i j hj
                split at hup
                · have hst := congrArg (fun p => p.1) (Option.some.inj hup)
                  simp only at hst
                  subst hst
                  exact hpre
                · rename_i bot hbot
                  split at hup
                  · exact Option.noConfusion hup
                  · rename_i st2 hres
                    obtain ⟨nx, hnx⟩ := rescheduleIf_char _ o now st2 hres
                    have hst := congrArg (fun p => p.1) (Option.some.inj hup)
                    simp only at hst
                    subst hst
                    subst hnx
                    intro hpost
                    simp at hpost
                    exact hpre hpost
  case MessageClicked index =>
    simp only [update] at hup
    cases hch : st.chat_history.get? index with
    | none =>
      rw [hch] at hup
      have hst := congrArg (fun p => p.1) (Option.some.inj hup)
      simp only at hst
      subst hst
      exact hpre
    | some msgTxt =>
      rw [hch] at hup
      simp only at hup
      cases hex : extractBotName msgTxt with
      | none =>
        rw [hex] at hup
        have hst := congrArg (fun p => p.1) (Option.some.inj hup)
        simp only at hst
        subst hst
        exact hpre
      | some nm =>
        rw [hex] at hup
        simp only at hup
        cases hfi : st.bots.findIdx? (fun b => b.name == nm) with
        | none =>
          rw [hfi] at hup
          have hst := congrArg (fun p => p.1) (Option.some.inj hup)
          simp only at hst
          subst hst
          exact hpre
        | some bidx =>
          rw [hfi] at hup
          have hst := congrArg (fun p => p.1) (Option.some.inj hup)
          simp only at hst
          subst hst
          intro hpost
          simp at hpost
          exact hpre hpost
  all_goals
    simp only [update] at hup
  all_goals
    repeat' (split at hup)
  all_goals
    first
    | exact Option.noConfusion hup
    | (have hst := congrArg (fun p => p.1) (Option.some.inj hup)
       try simp only at hst
       subst hst
       exact hpre)
    | (have hst := congrArg (fun p => p.1) (Option.some.inj hup)
       try simp only at hst
       subst hst
       intro hpost
       simp at hpost
       exact hpre hpost)
    | (have hst := congrArg (fun p => p.1) (Option.some.inj hup)
       try simp only at hst
       subst hst
       intro hpost
       simp at hpost)

/-- C10 witness: enabling all-bots mode from the initial state yields a
state where the two flags are not both true. -/
theorem mode_flags_mutually_exclusive_witness :
    ¬(({ AppState.init with all_bots_mode := true } : AppState).all_bots_mode
        = true ∧
      ({ AppState.init with all_bots_mode := true } : AppState).multiple_bots_mode
        = true) :=
  mode_flags_mutually_exclusive.2 AppState.init 1 oZero 0
    (Msg.ToggleAllBotsMode true)
    { AppState.init with all_bots_mode := true } 1 [] (by decide) (by decide)

/-! ## Claim C7 : log-before-send, error entries appended not retracted -/

/-- For any successful run of the all-bots loop: the global log grows by
exactly one appended entry per launched send (the old log is a prefix),
untargeted bots are untouched, and — when the targeted indices are
distinct — each targeted bot's history gains exactly the one entry. -/
theorem dispatchLoop_success_log (ch msgTxt : String) (simult : Bool)
    (lo hi : Nat) (de : Nat → Nat) (tag : Bool) :
    ∀ (ps : List (Nat × Nat)) (bots : List Bot) (chat : List String) bc,
      dispatchLoop ch msgTxt simult lo hi de tag ps bots chat = Option.some bc →
      bc.2.1.length = chat.length + bc.2.2.length ∧
      chat <+: bc.2.1 ∧
      (∀ i, i ∉ ps.map Prod.snd → bc.1.get? i = bots.get? i) ∧
      ((ps.map Prod.snd).Nodup →
        ∀ t, Eff.send t ∈ bc.2.2 →
          ∃ b, bots.get? t.botIndex = Option.some b ∧
            bc.1.get? t.botIndex = Option.some (pushHistory
              (if tag then histRand b.name msgTxt else histUser b.name msgTxt)
              b)) := by
  intro ps
  induction ps with
  | nil =>
    intro bots chat bc h
    have hbc : bc = (bots, chat, []) := (Option.some.inj h).symm
    subst hbc
    refine ⟨by simp, List.prefix_refl _, fun i _ => rfl, ?_⟩
    intro _ t ht
    simp at ht
  | cons q rest ih =>
    intro bots chat bc h
    obtain ⟨k, bi⟩ := q
    rw [dispatchLoop] at h
    cases hget : bots.get? bi with
    | none =>
      rw [hget] at h
      obtain ⟨h1, h2, h3, h4⟩ := ih _ _ _ h
      refine ⟨h1, h2, ?_, ?_⟩
      · intro i hi
        exact h3 i (by simp at hi; simp [hi.2])
      · intro hnd t ht
        simp only [List.map_cons, List.nodup_cons] at hnd
        exact h4 hnd.2 t ht
    | some bot =>
      rw [hget] at h
      simp only at h
      cases hd : (if simult then Option.some 0
          else (randRange lo hi (de k)).map (fun u => u * k)) with
      | none => rw [hd] at h; exact Option.noConfusion h
      | some d =>
        rw [hd] at h
        simp only at h
        split at h
        · exact Option.noConfusion h
        · rename_i b2 c2 effs hrec
          have hbc : bc = (b2, c2,
              Eff.send ⟨bi, bot.name, bot.token, ch, msgTxt, d⟩ :: effs) :=
            (Option.some.inj h).symm
          subst hbc
          obtain ⟨h1, h2, h3, h4⟩ := ih _ _ _ hrec
          refine ⟨?_, ?_, ?_, ?_⟩
          · simp only [List.length_append, List.length_singleton] at h1
            simp only [List.length_cons]
            omega
          · exact List.IsPrefix.trans (List.prefix_append chat _) h2
          · intro i hi
            simp only [List.map_cons, List.mem_cons, not_or] at hi
            rw [h3 i hi.2, modifyBot_get?_ne bots bi i _ hi.1]
          · intro hnd t ht
            simp only [List.map_cons, List.nodup_cons] at hnd
            rcases List.mem_cons.mp ht with he | hm
            · have hteq : t = ⟨bi, bot.name, bot.token, ch, msgTxt, d⟩ :=
                Eff.send.inj he
              subst hteq
              refine ⟨bot, hget, ?_⟩
              rw [h3 bi hnd.1,
                modifyBot_get?_self bots bi _ bot hget]
            · obtain ⟨b, hb, hb2⟩ := h4 hnd.2 t hm
              have hne : t.botIndex ≠ bi := by
                intro hcontra
                apply hnd.1
                obtain ⟨k', hk'⟩ :=
                  dispatchLoop_sends_subset _ _ _ _ _ _ _ _ _ _ _ hrec t hm
                rw [← hcontra]
                exact List.mem_map_of_mem Prod.snd hk'
              rw [modifyBot_get?_ne bots bi t.botIndex _ hne] at hb
              exact ⟨b, hb, hb2⟩

/-- C7: for the all-bots dispatch, before any send task runs the global
log has grown by exactly one appended entry per launched send (the old
log is a prefix, nothing is retracted) and each targeted bot's own
history has gained exactly one entry; and a failed send (`MessageSent`
with an error) appends one error-tagged entry to the global log and to
that bot's history, again leaving all prior entries in place.  Hence an
AllBots dispatch over two eligible bots appends 2 entries to the global
log before either network call completes (see the witness). -/
theorem log_append_semantics (st : AppState) (cnt : Nat) (o : Oracle)
    (now : Nat) :
    (∀ st' cnt' effs,
      update st cnt o now Msg.SendMessageAllBots = Option.some (st', cnt', effs) →
      st'.chat_history.length = st.chat_history.length + effs.length ∧
      st.chat_history <+: st'.chat_history ∧
      (∀ t, Eff.send t ∈ effs →
        ∃ b, st.bots.get? t.botIndex = Option.some b ∧
          st'.bots.get? t.botIndex =
            Option.some (pushHistory (histUser b.name st.message) b)))
    ∧ (∀ i e st' cnt' effs,
        update st cnt o now (Msg.MessageSent i (Except.error e)) =
          Option.some (st', cnt', effs) →
        st'.chat_history = st.chat_history ++ [errTag ++ e] ∧ effs = [] ∧
        ∀ b, st.bots.get? i = Option.some b →
          st'.bots.get? i = Option.some (pushHistory (errTag ++ e) b)) := by
  constructor
  · intro st' cnt' effs hup
    simp only [update] at hup
    by_cases hg : (st.message.isEmpty || st.channel.isEmpty) = true
    · rw [if_pos hg] at hup
      have h2 := Option.some.inj hup
      have hst : st = st' := congrArg (fun p => p.1) h2
      have heffs : ([] : List Eff) = effs := congrArg (fun p => p.2.2) h2
      subst hst
      subst heffs
      exact ⟨by simp, List.prefix_refl _, fun t ht => by simp at ht⟩
    · rw [if_neg hg] at hup
      by_cases ha : (availableBots st.bots).isEmpty = true
      · rw [if_pos ha] at hup
        have h2 := Option.some.inj hup
        have hst : st = st' := congrArg (fun p => p.1) h2
        have heffs : ([] : List Eff) = effs := congrArg (fun p => p.2.2) h2
        subst hst
        subst heffs
        exact ⟨by simp, List.prefix_refl _, fun t ht => by simp at ht⟩
      · rw [if_neg ha] at hup
        split at hup
        · exact Option.noConfusion hup
        · rename_i bots' chat' effs2 hloop
          have h2 := Option.some.inj hup
          have heffs : effs2 = effs := congrArg (fun p => p.2.2) h2
          have hst := congrArg (fun p => p.1) h2
          simp only at hst
          subst hst
          subst heffs
          obtain ⟨h1, h2', h3, h4⟩ :=
            dispatchLoop_success_log _ _ _ _ _ _ _ _ _ _ _ hloop
          have hnd : ((availableBots st.bots).enum.map Prod.snd).Nodup := by
            rw [List.enum_map_snd]
            exact availableBots_nodup st.bots
          have hchat : (if st.clear_after_send = true
              then { st with
                bots := bots', chat_history := chat', message := "" }
              else { st with bots := bots', chat_history := chat' }
              : AppState).chat_history = chat' := by
            split <;> rfl
          have hbots : (if st.clear_after_send = true
              then { st with
                bots := bots', chat_history := chat', message := "" }
              else { st with bots := bots', chat_history := chat' }
              : AppState).bots = bots' := by
            split <;> rfl
          refine ⟨?_, ?_, ?_⟩
          · rw [hchat]; exact h1
          · rw [hchat]; exact h2'
          · intro t ht
            rw [hbots]
            obtain ⟨b, hb, hb2⟩ := h4 hnd t ht
            exact ⟨b, hb, by simpa using hb2⟩
  · intro i e st' cnt' effs hup
    simp only [update] at hup
    have h2 := Option.some.inj hup
    have hst := congrArg (fun p => p.1) h2
    simp only at hst
    subst hst
    have heffs : ([] : List Eff) = effs := congrArg (fun p => p.2.2) h2
    subst heffs
    refine ⟨rfl, rfl, ?_⟩
    intro b hb
    exact modifyBot_get?_self st.bots i _ b hb

/-- A two-eligible-bot state (the spec's end-to-end scenario). -/
def stTwoBots : AppState :=
  { AppState.init with
    message := "hi"
    channel := "chan"
    bots := [botFix "a", botFix "b"] }

/-- The state after the all-bots dispatch on `stTwoBots`. -/
def stTwoBotsAfter : AppState :=
  { stTwoBots with
    chat_history := ["[a] hi", "[b] hi"]
    bots := [{ botFix "a" with chat_history := ["[a] hi"] },
             { botFix "b" with chat_history := ["[b] hi"] }] }

/-- C7 witness: the AllBots dispatch over two eligible bots appends 2
entries to the global log before any network call runs. -/
theorem log_append_semantics_witness :
    stTwoBotsAfter.chat_history.length = stTwoBots.chat_history.length + 2 ∧
    stTwoBots.chat_history <+: stTwoBotsAfter.chat_history := by
  have h := (log_append_semantics stTwoBots 1 oZero 0).1 stTwoBotsAfter 1
    [Eff.send ⟨0, "a", "tok", "chan", "hi", 0⟩,
     Eff.send ⟨1, "b", "tok", "chan", "hi", 0⟩] (by decide)
  exact ⟨h.1, h.2.1⟩

/-! ## Claim C8 : staggered delays (corrected: fresh draw per target) -/

/-- C8 (amended): in every non-simultaneous multi-bot dispatch with
`minDelaySec ≤ maxDelaySec`, the `k`-th launched send (0-indexed, in
selection order) is delayed by `u_k × k` seconds where `u_k` is a *fresh*
uniform draw from `[minDelaySec, maxDelaySec]` made for that target (not
one shared draw); consequently the `k`-th delay always lies in
`[k × minDelaySec, k × maxDelaySec]`. -/
theorem stagger_delay_bounds (st : AppState) (cnt : Nat) (o : Oracle)
    (now : Nat) (hsim : st.simultaneous_mode = false)
    (hdel : st.min_bot_delay ≤ st.max_bot_delay) :
    (∀ st' cnt' effs k t,
      update st cnt o now Msg.SendMessageAllBots = Option.some (st', cnt', effs) →
      effs.get? k = Option.some (Eff.send t) →
      (∃ u, st.min_bot_delay ≤ u ∧ u ≤ st.max_bot_delay ∧ t.delaySec = u * k) ∧
      k * st.min_bot_delay ≤ t.delaySec ∧ t.delaySec ≤ k * st.max_bot_delay)
    ∧ (∀ st' cnt' effs k t,
      update st cnt o now Msg.SendRandomMessage = Option.some (st', cnt', effs) →
      st.all_bots_mode = true → st.multiple_bots_mode = false →
      effs.get? k = Option.some (Eff.send t) →
      (∃ u, st.min_bot_delay ≤ u ∧ u ≤ st.max_bot_delay ∧ t.delaySec = u * k) ∧
      k * st.min_bot_delay ≤ t.delaySec ∧ t.delaySec ≤ k * st.max_bot_delay) := by
  have hok : st.simultaneous_mode = true ∨ st.min_bot_delay ≤ st.max_bot_delay :=
    Or.inr hdel
  have hbound : ∀ p ∈ (availableBots st.bots).enum, p.2 < st.bots.length := by
    intro p hp
    exact availableBots_lt st.bots p.2
      (List.get?_mem (List.mem_enum_iff_get?.mp hp))
  constructor
  · intro st' cnt' effs k t hup hk
    simp only [update] at hup
    by_cases hg : (st.message.isEmpty || st.channel.isEmpty) = true
    · rw [if_pos hg] at hup
      have heffs : ([] : List Eff) = effs :=
        congrArg (fun p => p.2.2) (Option.some.inj hup)
      rw [← heffs] at hk
      simp at hk
    · rw [if_neg hg] at hup
      by_cases ha : (availableBots st.bots).isEmpty = true
      · rw [if_pos ha] at hup
        have heffs : ([] : List Eff) = effs :=
          congrArg (fun p => p.2.2) (Option.some.inj hup)
        rw [← heffs] at hk
        simp at hk
      · rw [if_neg ha] at hup
        split at hup
        · exact Option.noConfusion hup
        · rename_i bots' chat' effs2 hloop
          have heffs : effs2 = effs :=
            congrArg (fun p => p.2.2) (Option.some.inj hup)
          subst heffs
          obtain ⟨bc, hbc, hlen, -, -, -, hgetn, -, -, -⟩ :=
            dispatchLoop_char st.channel st.message st.simultaneous_mode
              st.min_bot_delay st.max_bot_delay o.delayEntropy false hok
              (availableBots st.bots).enum st.bots st.chat_history hbound
          rw [hloop] at hbc
          have hbc2 : bc = (bots', chat', effs2) := Option.some.inj hbc.symm
          subst hbc2
          have hklt : k < effs2.length := by
            rw [List.get?_eq_getElem?] at hk
            exact (List.getElem?_eq_some_iff.mp hk).1
          have hklt2 : k < (availableBots st.bots).length := by
            have := hlen
            simp only [List.enum_length] at this
            omega
          obtain ⟨a, hga⟩ : ∃ a, (availableBots st.bots).get? k = Option.some a := by
            cases hg2 : (availableBots st.bots).get? k with
            | none =>
              rw [List.get?_eq_getElem?, List.getElem?_eq_none_iff] at hg2
              omega
            | some a => exact ⟨a, rfl⟩
          have hpk : (availableBots st.bots).enum.get? k = Option.some (k, a) := by
            rw [List.get?_enum, hga]
            rfl
          obtain ⟨t', ht', -, -, -, -, hdu⟩ := hgetn k (k, a) hpk
          have htt : t = t' := by
            rw [hk] at ht'
            exact Eff.send.inj (Option.some.inj ht')
          subst htt
          obtain ⟨u, hu1, hu2, hu3⟩ := hdu hsim
          refine ⟨⟨u, hu1, hu2, hu3⟩, ?_, ?_⟩
          · rw [hu3]
            show k * st.min_bot_delay ≤ u * k
            rw [Nat.mul_comm u k]
            exact Nat.mul_le_mul_left k hu1
          · rw [hu3]
            show u * k ≤ k * st.max_bot_delay
            rw [Nat.mul_comm u k]
            exact Nat.mul_le_mul_left k hu2
  · intro st' cnt' effs k t hup hab hmb hk
    simp only [update] at hup
    by_cases hg : (st.messages.isEmpty || st.channel.isEmpty) = true
    · rw [if_pos hg] at hup
      have heffs : ([] : List Eff) = effs :=
        congrArg (fun p => p.2.2) (Option.some.inj hup)
      rw [← heffs] at hk
      simp at hk
    · rw [if_neg hg] at hup
      by_cases ha : (availableBots st.bots).isEmpty = true
      · rw [if_pos ha] at hup
        have heffs : ([] : List Eff) = effs :=
          congrArg (fun p => p.2.2) (Option.some.inj hup)
        rw [← heffs] at hk
        simp at hk
      · rw [if_neg ha] at hup
        rw [if_neg (by simp [hmb])] at hup
        rw [if_pos hab] at hup
        split at hup
        · exact Option.noConfusion hup
        · rename_i mi hmi
          split at hup
          · exact Option.noConfusion hup
          · rename_i bots' chat' effs2 hloop
            split at hup
            · exact Option.noConfusion hup
            · rename_i st2 hres
              have heffs : effs2 = effs :=
                congrArg (fun p => p.2.2) (Option.some.inj hup)
              subst heffs
              obtain ⟨bc, hbc, hlen, -, -, -, hgetn, -, -, -⟩ :=
                dispatchLoop_char st.channel (st.messages.getD mi "")
                  st.simultaneous_mode st.min_bot_delay st.max_bot_delay
                  o.delayEntropy true hok
                  (availableBots st.bots).enum st.bots st.chat_history hbound
              rw [hloop] at hbc
              have hbc2 : bc = (bots', chat', effs2) := Option.some.inj hbc.symm
              subst hbc2
              have hklt : k < effs2.length := by
                rw [List.get?_eq_getElem?] at hk
                exact (List.getElem?_eq_some_iff.mp hk).1
              have hklt2 : k < (availableBots st.bots).length := by
                have := hlen
                simp only [List.enum_length] at this
                omega
              obtain ⟨a, hga⟩ : ∃ a, (availableBots st.bots).get? k =
                  Option.some a := by
                cases hg2 : (availableBots st.bots).get? k with
                | none =>
                  rw [List.get?_eq_getElem?, List.getElem?_eq_none_iff] at hg2
                  omega
                | some a => exact ⟨a, rfl⟩
              have hpk : (availableBots st.bots).enum.get? k =
                  Option.some (k, a) := by
                rw [List.get?_enum, hga]
                rfl
              obtain ⟨t', ht', -, -, -, -, hdu⟩ := hgetn k (k, a) hpk
              have htt : t = t' := by
                rw [hk] at ht'
                exact Eff.send.inj (Option.some.inj ht')
              subst htt
              obtain ⟨u, hu1, hu2, hu3⟩ := hdu hsim
              refine ⟨⟨u, hu1, hu2, hu3⟩, ?_, ?_⟩
              · rw [hu3]
                show k * st.min_bot_delay ≤ u * k
                rw [Nat.mul_comm u k]
                exact Nat.mul_le_mul_left k hu1
              · rw [hu3]
                show u * k ≤ k * st.max_bot_delay
                rw [Nat.mul_comm u k]
                exact Nat.mul_le_mul_left k hu2

/-- The effects of an `update` result (empty on panic). -/
def effsOf (r : Option (AppState × Nat × List Eff)) : List Eff :=
  match r with
  | Option.some p => p.2.2
  | Option.none => []

/-- Three eligible bots, staggered mode, delay bounds `[1, 3]`. -/
def stThreeBots : AppState :=
  { AppState.init with
    message := "hi"
    channel := "chan"
    simultaneous_mode := false
    bots := [botFix "a", botFix "b", botFix "c"] }

/-- An oracle whose per-target delay draws differ between targets. -/
def oC8 : Oracle :=
  { oZero with delayEntropy := fun k => if k = 1 then 2 else 0 }

/-- C8 counterexample: with delay bounds `[1, 3]`, the three staggered
sends get delays `[0, 3, 2]` (target 1 drew `u = 3`, target 2 drew
`u = 1`); no single uniform draw `u` can produce `[0 × u, 1 × u, 2 × u] =
[0, 3, 2]`, refuting "k × u where u is one uniform draw". -/
theorem stagger_not_single_draw :
    sendDelays (effsOf (update stThreeBots 1 oC8 0 Msg.SendMessageAllBots)) =
      [0, 3, 2] ∧
    ¬ ∃ u, 1 ≤ u ∧ u ≤ 3 ∧ ([0 * u, 1 * u, 2 * u] : List Nat) = [0, 3, 2] := by
  constructor
  · decide
  · rintro ⟨u, h1, h3, heq⟩
    simp only [List.cons.injEq, and_true] at heq
    omega

/-- The state after the staggered all-bots dispatch on `stThreeBots`. -/
def stThreeBotsAfter : AppState :=
  { stThreeBots with
    chat_history := ["[a] hi", "[b] hi", "[c] hi"]
    bots := [{ botFix "a" with chat_history := ["[a] hi"] },
             { botFix "b" with chat_history := ["[b] hi"] },
             { botFix "c" with chat_history := ["[c] hi"] }] }

/-- C8 witness: in the concrete staggered run, the send at position 1 has
delay `3 = u × 1` for a fresh draw `u = 3 ∈ [1, 3]`, within
`[1 × 1, 1 × 3]`. -/
theorem stagger_delay_bounds_witness :
    (∃ u, stThreeBots.min_bot_delay ≤ u ∧ u ≤ stThreeBots.max_bot_delay ∧
      (3 : Nat) = u * 1) ∧
    1 * stThreeBots.min_bot_delay ≤ 3 ∧ (3 : Nat) ≤ 1 * stThreeBots.max_bot_delay := by
  exact (stagger_delay_bounds stThreeBots 1 oC8 0 rfl (by decide)).1
    stThreeBotsAfter 1
    [Eff.send ⟨0, "a", "tok", "chan", "hi", 0⟩,
     Eff.send ⟨1, "b", "tok", "chan", "hi", 3⟩,
     Eff.send ⟨2, "c", "tok", "chan", "hi", 2⟩]
    1 ⟨1, "b", "tok", "chan", "hi", 3⟩ (by decide) (by decide)

/-! ## Claim C4 : SubsetBots target selection and message assignment
(corrected: the pool is re-shuffled per target, not shuffled once) -/

theorem map_getD_range_eq_take (l : List Nat) (n : Nat) (h : n ≤ l.length) :
    (List.range n).map (fun i => l.getD i 0) = l.take n := by
  apply List.ext_getElem
  · simp
    omega
  · intro k h1 h2
    simp only [List.getElem_map, List.getElem_range, List.getElem_take]
    have hk : k < l.length := by
      simp at h1
      omega
    rw [List.getD_eq_getElem?_getD, List.getElem?_eq_getElem hk]
    rfl

/-- C4 (amended): a `SubsetBots` dispatch (multiple-bots mode) selects as
targets the first `min(n, |eligible|)` elements of one shuffle of the
eligible set, raising no error when `n` exceeds the eligible count; but
the message for target `i` is *not* taken from a single shuffle of the
pool: when the pool has more than `i` entries a *fresh* shuffle is drawn
for that target (entry `i mod len`), and otherwise the target draws an
independent uniformly random pool entry (`multiMsgSel`). -/
theorem subset_dispatch_characterisation (st : AppState) (cnt : Nat)
    (o : Oracle) (now : Nat) (hval : o.Valid)
    (hmb : st.multiple_bots_mode = true) (hsim : st.simultaneous_mode = true)
    (hsch : st.random_messages_enabled = false)
    (hmsg : st.messages.isEmpty = false) (hch : st.channel.isEmpty = false) :
    ∃ st' effs,
      update st cnt o now Msg.SendRandomMessage = Option.some (st', cnt, effs) ∧
      effs.length = min st.multiple_bots_count (availableBots st.bots).length ∧
      sendTargets effs = (o.shuffleBots (availableBots st.bots)).take
        (min st.multiple_bots_count (availableBots st.bots).length) ∧
      sendMessages effs = (List.range (min st.multiple_bots_count
        (availableBots st.bots).length)).map
          (fun i => multiMsgSel o st.messages i) := by
  have hshblen : (o.shuffleBots (availableBots st.bots)).length =
      (availableBots st.bots).length := (hval.1 _).length_eq
  by_cases ha : (availableBots st.bots).isEmpty = true
  · have hnil : availableBots st.bots = [] := by
      cases hA : availableBots st.bots with
      | nil => rfl
      | cons x xs => rw [hA] at ha; simp at ha
    refine ⟨st, [], ?_, ?_, ?_, ?_⟩
    · simp [update, hmsg, hch, ha]
    · simp [hnil]
    · simp [sendTargets, hnil]
    · simp [sendMessages, hnil]
  · have hmne : st.messages ≠ [] := by
      intro hcontra
      rw [hcontra] at hmsg
      simp at hmsg
    have hbound : ∀ i ∈ List.range
        (min st.multiple_bots_count (availableBots st.bots).length),
        (o.shuffleBots (availableBots st.bots)).getD i 0 < st.bots.length := by
      intro i hi
      have hilt : i < (o.shuffleBots (availableBots st.bots)).length := by
        rw [hshblen]
        have := List.mem_range.mp hi
        omega
      exact availableBots_lt st.bots _
        ((hval.1 _).mem_iff.mp (getD_mem_of_lt _ _ hilt))
    obtain ⟨bc, hbc, hlen, htgt, hmsgs2, -⟩ :=
      multiLoop_char st.channel st.messages st.simultaneous_mode
        st.min_bot_delay st.max_bot_delay o
        (o.shuffleBots (availableBots st.bots)) (Or.inl hsim) hmne
        (fun i => (hval.2 i _).length_eq)
        (List.range (min st.multiple_bots_count (availableBots st.bots).length))
        st.bots st.chat_history hbound
    obtain ⟨b2, c2, effs⟩ := bc
    refine ⟨{ st with
        bots := b2, chat_history := c2,
        last_message_time := Option.some now }, effs, ?_, ?_, ?_, ?_⟩
    · simp only [update, hmsg, hch, Bool.or_self, Bool.false_eq_true, if_false,
        ha, hmb, if_true]
      rw [hbc]
      simp [rescheduleIf, hsch]
    · simpa using hlen
    · have := htgt
      rw [this, map_getD_range_eq_take _ _ (by omega)]
    · simpa using hmsgs2
  
/-- Two eligible bots, two distinct pool messages, subset mode `n = 2`. -/
def stSubset : AppState :=
  { AppState.init with
    channel := "chan"
    messages := ["A", "B"]
    multiple_bots_mode := true
    multiple_bots_count := 2
    bots := [botFix "a", botFix "b"] }

/-- An oracle whose per-target pool shuffles differ between targets. -/
def oC4 : Oracle :=
  { oZero with shuffleMsgsAt := fun i l => if i = 1 then l.reverse else l }

theorem oC4_valid : oC4.Valid := by
  refine ⟨fun l => List.Perm.refl l, fun i l => ?_⟩
  show (if i = 1 then l.reverse else l).Perm l
  split
  · exact List.reverse_perm l
  · exact List.Perm.refl l

/-- Modelled from the spec: the SubsetBots message assignment described in
§4.4 — shuffle the message pool *once* and give target `k` entry
`k mod poolLen` of that single shuffled pool. -/
def specSubsetAssign (shuffledPool : List String) (numTargets : Nat) :
    List String :=
  (List.range numTargets).map
    (fun k => shuffledPool.getD (k % shuffledPool.length) "")

/-- C4 counterexample: on a pool of two distinct messages `["A", "B"]`
and two targets, the code assigns `["A", "A"]` (each target re-shuffles
the pool), while the spec's single-shuffle assignment can never produce
`["A", "A"]`: the only shuffles of the pool are `["A", "B"]` and
`["B", "A"]`, and `specSubsetAssign` maps neither to `["A", "A"]`. -/
theorem subset_message_assignment_not_single_shuffle :
    sendMessages (effsOf (update stSubset 1 oC4 0 Msg.SendRandomMessage)) =
      ["A", "A"] ∧
    specSubsetAssign ["A", "B"] 2 ≠ ["A", "A"] ∧
    specSubsetAssign ["B", "A"] 2 ≠ ["A", "A"] := by
  refine ⟨by decide, by decide, by decide⟩

/-- C4 witness: the amended characterisation applied to the concrete
two-bot, two-message subset dispatch with the identity oracle. -/
theorem subset_dispatch_characterisation_witness :
    ∃ st' effs,
      update stSubset 1 oZero 0 Msg.SendRandomMessage =
        Option.some (st', 1, effs) ∧
      effs.length = min stSubset.multiple_bots_count
        (availableBots stSubset.bots).length ∧
      sendTargets effs = (oZero.shuffleBots (availableBots stSubset.bots)).take
        (min stSubset.multiple_bots_count (availableBots stSubset.bots).length) ∧
      sendMessages effs = (List.range (min stSubset.multiple_bots_count
        (availableBots stSubset.bots).length)).map
          (fun i => multiMsgSel oZero stSubset.messages i) :=
  subset_dispatch_characterisation stSubset 1 oZero 0 oZero_valid
    rfl rfl rfl rfl rfl

end NGS
